import Mathlib

/-!
Verification development for the acute-ward bed-occupancy discrete-event
simulation (`RT_vidigi_des_model_classes.py`).

The simulation is embedded shallowly: times and durations are rationals
(the Python code uses floats; all identities proved here are exact, hence
hold within any floating tolerance), the SimPy cooperative scheduler is an
explicit event queue keyed by `(time, priority, seq)` exactly as SimPy's
heap is (`Initialize` events are URGENT = 0, `Timeout` and succeeded
store get/put events are NORMAL = 1), and the stochastic samplers
(`random.uniform`, `NSPPThinning.sample`, `Lognormal.sample`) are oracles:
streams of values indexed by call number, one stream per sampler, exactly
mirroring how each seeded generator produces a deterministic sequence.
-/

namespace VidigiDES

/-- One entry of `Model.event_log`: the dictionaries appended in
`Model.occupy_bed` have keys patient / pathway / event_type / event /
time / (optional) resource_id. -/
structure Entry where
  patient : ℕ
  pathway : String
  event_type : String
  event : String
  time : ℚ
  resource_id : Option ℕ
deriving DecidableEq

/-- The `Patient` entity (`Patient.__init__`).  The constructor sets the
four timing fields to `-np.inf`; `none` embeds that sentinel (no rational
is `-inf`), and `pathway_type` starts as the empty string. -/
structure PatientRec where
  identifier : ℕ
  arrival : Option ℚ
  wait_bed : Option ℚ
  bed_los : Option ℚ
  total_time : Option ℚ
  pathway_type : String
deriving DecidableEq

/-- `Patient(p_id)`: all timing fields at their `-np.inf` default. -/
def PatientRec.init (pid : ℕ) : PatientRec :=
  ⟨pid, none, none, none, none, ""⟩

/-- The parameters of class `g` that the simulation core reads. -/
structure Config where
  n_beds : ℕ
  long_stay_prob : ℚ
  sim_duration : ℚ
  warm_up_period : ℚ
deriving DecidableEq

/-- The stochastic environment of one run: each seeded sampler is a
deterministic sequence of draws, indexed by call number.
`rand` is Python's global `random()` stream (values in `[0,1)`);
`random.uniform(a, b)` is `a + (b - a) * random()`.
`arrSample k t` is the `k`-th call to `NSPPThinning.sample` made with
`simulation_time = t`; `shortLos` / `longLos` are the two `Lognormal`
samplers. -/
structure Streams where
  rand : ℕ → ℚ
  arrSample : ℕ → ℚ → ℚ
  shortLos : ℕ → ℚ
  longLos : ℕ → ℚ

/-- The resumption points of the cooperative processes, i.e. the kinds of
events SimPy schedules for this model:
`genInit`/`genTimeout` resume `generator_patient_arrivals`;
`procInit pid` is the URGENT `Initialize` event of `env.process(occupy_bed(p))`;
`getSucceed pid bed startWait` is patient `pid`'s succeeded `beds.get()`
event, carrying the bed popped from the store at trigger time and the
process-local `start_wait`;
`putEvent` is a succeeded `beds.put(...)` event, whose processing runs the
store's `_trigger_get` callback;
`losTimeout pid bed` resumes `occupy_bed` after `timeout(self.bed_los)`. -/
inductive Ev where
  | genInit
  | genTimeout
  | procInit (pid : ℕ)
  | getSucceed (pid bed : ℕ) (startWait : ℚ)
  | putEvent
  | losTimeout (pid bed : ℕ)
deriving DecidableEq

/-- A scheduled event, as SimPy's heap holds it: sort key
`(time, priority, seq)` where priority URGENT = 0 < NORMAL = 1 and `seq`
is the globally increasing schedule counter. -/
structure Sched where
  time : ℚ
  prio : ℕ
  seq : ℕ
  ev : Ev
deriving DecidableEq

/-- Strict lexicographic order on SimPy's heap key `(time, priority, seq)`. -/
def Sched.keyLt (a b : Sched) : Bool :=
  decide (a.time < b.time) ||
    (a.time == b.time &&
      (a.prio < b.prio || (a.prio == b.prio && a.seq < b.seq)))

/-- Insert a scheduled event keeping the queue sorted by its heap key, so
popping the head pops the minimum, as `heapq` does. -/
def insertEv (e : Sched) : List Sched → List Sched
  | [] => [e]
  | f :: rest => if Sched.keyLt e f then e :: f :: rest else f :: insertEv e rest

/-- The whole mutable state of one `Model` run: the SimPy environment
(clock, event queue, schedule counter), the `beds` store (`items` list and
FIFO `get_queue` of blocked getters, each remembering its process-local
`start_wait`), and the `Model` attributes: `event_log`, `results_df`
(rows `(Patient ID, Queue Time Bed, Length of Stay)`, a `none` cell being
a pandas `NaN`), `patient_counter`, `patients`, the shared attributes
`bed_los` / `arrival` / `wait_bed` / `total_time` that `occupy_bed`
writes on `self`, and the call counters of the four sampler streams. -/
structure ModelState where
  now : ℚ
  nextSeq : ℕ
  queue : List Sched
  storeItems : List ℕ
  getQueue : List (ℕ × ℚ)
  event_log : List Entry
  results : List (ℕ × Option ℚ × Option ℚ)
  patient_counter : ℕ
  patients : List PatientRec
  bed_los : ℚ
  arrival : ℚ
  wait_bed : ℚ
  total_time : ℚ
  randIdx : ℕ
  arrIdx : ℕ
  shortIdx : ℕ
  longIdx : ℕ
deriving DecidableEq

/-- Python's float modulo for a positive modulus: `x % y = x - y*⌊x/y⌋`,
landing in `[0, y)` for `y > 0`. -/
def pymod (x y : ℚ) : ℚ := x - y * ⌊x / y⌋

/-- `env.schedule`: append an event with the next sequence number. -/
def schedule (s : ModelState) (t : ℚ) (prio : ℕ) (ev : Ev) : ModelState :=
  { s with queue := insertEv ⟨t, prio, s.nextSeq, ev⟩ s.queue,
           nextSeq := s.nextSeq + 1 }

/-- `self.event_log.append(...)`. -/
def appendLog (s : ModelState) (e : Entry) : ModelState :=
  { s with event_log := s.event_log ++ [e] }

/-- `self.results_df.at[pid, "Queue Time Bed"] = v`: overwrite the cell if
the row exists, else enlarge with a new row whose other cell is NaN. -/
def upsertQ (rows : List (ℕ × Option ℚ × Option ℚ)) (pid : ℕ) (v : ℚ) :
    List (ℕ × Option ℚ × Option ℚ) :=
  match rows with
  | [] => [(pid, some v, none)]
  | (i, q, l) :: rest =>
    if i = pid then (i, some v, l) :: rest else (i, q, l) :: upsertQ rest pid v

/-- `self.results_df.at[pid, "Length of Stay"] = v`. -/
def upsertL (rows : List (ℕ × Option ℚ × Option ℚ)) (pid : ℕ) (v : ℚ) :
    List (ℕ × Option ℚ × Option ℚ) :=
  match rows with
  | [] => [(pid, none, some v)]
  | (i, q, l) :: rest =>
    if i = pid then (i, q, some v) :: rest else (i, q, l) :: upsertL rest pid v

/-- `patient.pathway_type = pw` for the patient object with this id. -/
def setPathway (ps : List PatientRec) (pid : ℕ) (pw : String) : List PatientRec :=
  ps.map (fun p => if p.identifier = pid then { p with pathway_type := pw } else p)

/-- Read `patient.pathway_type` back from the patient list. -/
def pathwayOf (s : ModelState) (pid : ℕ) : String :=
  match s.patients.find? (fun p => p.identifier == pid) with
  | some p => p.pathway_type
  | none => ""

/-- The matching loop of `simpy.Store._trigger_get`: succeed blocked get
events in FIFO order while items remain, pairing the `k`-th blocked getter
with the `k`-th item (`items.pop(0)`).  Returns the remaining items, the
remaining get queue, and the `(pid, bed, start_wait)` list to schedule. -/
def flushGets : List ℕ → List (ℕ × ℚ) → List ℕ × List (ℕ × ℚ) × List (ℕ × ℕ × ℚ)
  | b :: items, (pid, sw) :: gq =>
    let r := flushGets items gq
    (r.1, r.2.1, (pid, b, sw) :: r.2.2)
  | items, gq => (items, gq, [])

/-- Schedule a succeeded get event (NORMAL priority, at the current time)
for each flushed waiter, first waiter first. -/
def schedGets : List (ℕ × ℕ × ℚ) → ModelState → ModelState
  | [], st => st
  | w :: ws, st => schedGets ws (schedule st st.now 1 (.getSucceed w.1 w.2.1 w.2.2))

/-- Run `_trigger_get`: flush the waiter/item matching loop and schedule
the succeeded get events. -/
def triggerGet (s : ModelState) : ModelState :=
  schedGets (flushGets s.storeItems s.getQueue).2.2
    { s with storeItems := (flushGets s.storeItems s.getQueue).1,
             getQueue := (flushGets s.storeItems s.getQueue).2.1 }

/-- The event-log dictionaries of `occupy_bed`, one abbreviation per
append site (arrival, bed_wait_begins, bed_occupy_begins, overnight_stay,
bed_occupy_complete, depart). -/
def entA (pid : ℕ) (pw : String) (t : ℚ) : Entry :=
  ⟨pid, pw, "arrival_departure", "arrival", t, none⟩

def entW (pid : ℕ) (pw : String) (t : ℚ) : Entry :=
  ⟨pid, pw, "queue", "bed_wait_begins", t, none⟩

def entB (pid : ℕ) (pw : String) (t : ℚ) (bed : ℕ) : Entry :=
  ⟨pid, pw, "resource_use", "bed_occupy_begins", t, some bed⟩

def entOV (pid : ℕ) (pw : String) (t : ℚ) (bed : ℕ) : Entry :=
  ⟨pid, pw, "overnight_log", "overnight_stay", t, some bed⟩

def entC (pid : ℕ) (pw : String) (t : ℚ) (bed : ℕ) : Entry :=
  ⟨pid, pw, "resource_use_end", "bed_occupy_complete", t, some bed⟩

def entD (pid : ℕ) (pw : String) (t : ℚ) : Entry :=
  ⟨pid, pw, "arrival_departure", "depart", t, none⟩

/-- Result of the overnight-discharge-blocking block of `occupy_bed`
(lines 274-291): the possibly extended `self.bed_los`, the optional
`overnight_stay` entry, and the advanced `random` call counter. -/
structure OvernightOut where
  bed_los : ℚ
  logged : Option Entry
  randIdx : ℕ
deriving DecidableEq

/-- `if ((self.env.now + self.bed_los) % 24) >= 12:` extend
`self.bed_los` by `24 - ((now + bed_los) % 24)` plus
`random.uniform(2.0, 5.0)`, and log `overnight_stay` at the original
(pre-extension) end time, tagged with the occupied bed. -/
def overnightRule (env : Streams) (pid : ℕ) (pw : String) (bed : ℕ)
    (now bedLos : ℚ) (ridx : ℕ) : OvernightOut :=
  if 12 ≤ pymod (now + bedLos) 24 then
    let afterHoursEnd := now + bedLos
    { bed_los := bedLos + (24 - pymod (now + bedLos) 24) + (2 + (5 - 2) * env.rand ridx),
      logged := some (entOV pid pw afterHoursEnd bed),
      randIdx := ridx + 1 }
  else
    { bed_los := bedLos, logged := none, randIdx := ridx }

/-- One iteration of `Model.generator_patient_arrivals` (lines 186-208):
increment the counter, create the patient, start its `occupy_bed` process
(an URGENT `Initialize` event), sample the inter-arrival gap at the
current simulation time and time out for it. -/
def execGen (env : Streams) (s : ModelState) : ModelState :=
  let pid := s.patient_counter + 1
  let s1 := { s with patient_counter := pid,
                     patients := s.patients ++ [PatientRec.init pid] }
  let s2 := schedule s1 s1.now 0 (.procInit pid)
  let inter := env.arrSample s2.arrIdx s2.now
  let s3 := { s2 with arrIdx := s2.arrIdx + 1 }
  schedule s3 (s3.now + inter) 1 .genTimeout

/-- The head of `Model.occupy_bed` (lines 213-252): classify the patient
with `random.uniform(0,1) > g.long_stay_prob`, sample `self.bed_los` from
the corresponding Lognormal stream, set `patient.pathway_type`, set the
shared `self.arrival`, log `arrival` and `bed_wait_begins`, then call
`beds.get()` (join the store's get queue, remembering `start_wait = now`,
and run `_trigger_get`). -/
def execProcInit (cfg : Config) (env : Streams) (s : ModelState) (pid : ℕ) :
    ModelState :=
  let u := env.rand s.randIdx
  let s1 := { s with randIdx := s.randIdx + 1 }
  let s2 :=
    if cfg.long_stay_prob < u then
      { s1 with bed_los := env.shortLos s1.shortIdx, shortIdx := s1.shortIdx + 1,
                patients := setPathway s1.patients pid "short-stay" }
    else
      { s1 with bed_los := env.longLos s1.longIdx, longIdx := s1.longIdx + 1,
                patients := setPathway s1.patients pid "long-stay" }
  let s3 := { s2 with arrival := s2.now }
  let pw := pathwayOf s3 pid
  let s4 := appendLog s3 (entA pid pw s3.now)
  let s5 := appendLog s4 (entW pid pw s4.now)
  let s6 := { s5 with getQueue := s5.getQueue ++ [(pid, s5.now)] }
  triggerGet s6

/-- The middle of `Model.occupy_bed` (lines 254-296), resumed when the
get event is processed: record `self.wait_bed = now - start_wait` into the
results row, log `bed_occupy_begins`, apply the overnight rule to the
shared `self.bed_los`, record `self.bed_los` as the Length of Stay, and
time out for `self.bed_los`. -/
def execGetSucceed (env : Streams) (s : ModelState) (pid bed : ℕ) (sw : ℚ) :
    ModelState :=
  let wait := s.now - sw
  let s1 := { s with wait_bed := wait, results := upsertQ s.results pid wait }
  let pw := pathwayOf s1 pid
  let s2 := appendLog s1 (entB pid pw s1.now bed)
  let o := overnightRule env pid pw bed s2.now s2.bed_los s2.randIdx
  let s3 := { s2 with bed_los := o.bed_los, randIdx := o.randIdx,
                      event_log := s2.event_log ++ o.logged.toList }
  let s4 := { s3 with results := upsertL s3.results pid s3.bed_los }
  schedule s4 (s4.now + s4.bed_los) 1 (.losTimeout pid bed)

/-- The tail of `Model.occupy_bed` (lines 298-320), resumed when the LOS
timeout fires: log `bed_occupy_complete`, `beds.put(bed_resource)` (the
item is appended at call time and the succeeded put event is scheduled;
its processing runs `_trigger_get`), set the shared
`self.total_time = now - self.arrival`, and log `depart`. -/
def execLos (s : ModelState) (pid bed : ℕ) : ModelState :=
  let pw := pathwayOf s pid
  let s1 := appendLog s (entC pid pw s.now bed)
  let s2 := { s1 with storeItems := s1.storeItems ++ [bed] }
  let s3 := schedule s2 s2.now 1 .putEvent
  let s4 := { s3 with total_time := s3.now - s3.arrival }
  appendLog s4 (entD pid pw s4.now)

/-- Dispatch the processing of one popped event. -/
def execEv (cfg : Config) (env : Streams) (s : ModelState) : Ev → ModelState
  | .genInit => execGen env s
  | .genTimeout => execGen env s
  | .procInit pid => execProcInit cfg env s pid
  | .getSucceed pid bed sw => execGetSucceed env s pid bed sw
  | .putEvent => triggerGet s
  | .losTimeout pid bed => execLos s pid bed

/-- One scheduler step of `env.run(until=g.sim_duration + g.warm_up_period)`:
pop the least-key event; if its time has reached the bound the run is over
(pending events are abandoned, not flushed), else advance the clock to it
and process it. -/
def stepSim (cfg : Config) (env : Streams) (s : ModelState) : ModelState :=
  match s.queue with
  | [] => s
  | e :: rest =>
    if e.time < cfg.sim_duration + cfg.warm_up_period then
      execEv cfg env { s with queue := rest, now := e.time } e.ev
    else s

/-- The state after `Model.__init__` and the `env.process(...)` call at
the top of `Model.run`: clock at 0, the generator's URGENT `Initialize`
event queued, the store populated by `populate_store` with beds
`id_attribute = 1 .. n_beds` (the commented-out equivalent loop in
`init_resources` documents the ids), and `results_df` seeded with the
single row `Patient ID 1, Queue Time Bed 0.0, Length of Stay 0.0`. -/
def initState (cfg : Config) : ModelState where
  now := 0
  nextSeq := 1
  queue := [⟨0, 0, 0, .genInit⟩]
  storeItems := List.range' 1 cfg.n_beds
  getQueue := []
  event_log := []
  results := [(1, some 0, some 0)]
  patient_counter := 0
  patients := []
  bed_los := 0
  arrival := 0
  wait_bed := 0
  total_time := 0
  randIdx := 0
  arrIdx := 0
  shortIdx := 0
  longIdx := 0

/-- The state after `k` scheduler steps; since a finished run steps to
itself, `simSteps cfg env k` for every `k` enumerates exactly the
reachable states of the run. -/
def simSteps (cfg : Config) (env : Streams) : ℕ → ModelState
  | 0 => initState cfg
  | k + 1 => stepSim cfg env (simSteps cfg env k)

/-- `results_df["Queue Time Bed"].mean()`: pandas' mean skips NaN cells. -/
def meanColumn (col : List (Option ℚ)) : ℚ :=
  let vs := col.filterMap id
  vs.sum / vs.length

/-- `self.mean_q_time_bed` as computed by `calculate_run_results`. -/
def meanQTimeBed (s : ModelState) : ℚ := meanColumn (s.results.map (fun r => r.2.1))

/-- The value stored in the `Arrivals` column of the trial summary for a
run: `len(patient_level_results)` (line 384). -/
def arrivalsValue (s : ModelState) : ℕ := s.results.length

/-- The per-run random seeds derived in `Trial.run_trial` (line 376) and
`Model.__init__` (lines 144-159): `random.seed(run)`, NSPP seeds
`run*42` and `run*88`, and a Lognormal seed for each pathway class. -/
structure Seeds where
  pyRandom : ℕ
  nspp1 : ℕ
  nspp2 : ℕ
  losShort : ℕ
  losLong : ℕ
deriving DecidableEq

/-- Seed of the short-stay `Lognormal` (line 154): `run_number * g.random_number_set`. -/
def shortLosSeed (run rns : ℕ) : ℕ := run * rns

/-- Seed of the long-stay `Lognormal` (line 159): `run_number * g.random_number_set`. -/
def longLosSeed (run rns : ℕ) : ℕ := run * rns

/-- All seeds derived for run index `run` with `g.random_number_set = rns`. -/
def seedsOf (run rns : ℕ) : Seeds :=
  ⟨run, run * 42, run * 88, shortLosSeed run rns, longLosSeed run rns⟩

/-- The event log a single run produces. -/
def runModelLog (cfg : Config) (env : Streams) (fuel : ℕ) : List Entry :=
  (simSteps cfg env fuel).event_log

/-- The sub-log of one patient, in insertion order. -/
def logFor (s : ModelState) (pid : ℕ) : List Entry :=
  s.event_log.filter (fun e => e.patient == pid)

/-- The event names logged for one patient, in insertion order. -/
def logNames (s : ModelState) (pid : ℕ) : List String :=
  (logFor s pid).map (fun e => e.event)

/-- The results row of a patient id: `(Queue Time Bed, Length of Stay)`
cells, or `none` when `results_df` has no such row. -/
def rowOf (s : ModelState) (pid : ℕ) : Option (Option ℚ × Option ℚ) :=
  (s.results.find? (fun r => r.1 == pid)).map (fun r => r.2)

/-- The patient a scheduled event belongs to, if any. -/
def evPid : Ev → Option ℕ
  | .procInit pid => some pid
  | .getSucceed pid _ _ => some pid
  | .losTimeout pid _ => some pid
  | _ => none

/-- All scheduled events belonging to a patient. -/
def pidEvs (s : ModelState) (pid : ℕ) : Multiset Sched :=
  Multiset.filter (fun e => evPid e.ev = some pid) (s.queue : Multiset Sched)

/-- The scheduled events belonging to a patient, as a function of the
queue list. -/
def pidEvsQ (q : List Sched) (pid : ℕ) : Multiset Sched :=
  Multiset.filter (fun e => evPid e.ev = some pid) (q : Multiset Sched)

/-- The get-queue entries of a patient. -/
def gqFor (s : ModelState) (pid : ℕ) : List (ℕ × ℚ) :=
  s.getQueue.filter (fun x => x.1 == pid)

/-- The bed a scheduled event holds, if any: a bed that has left the
store is carried either by a succeeded-but-unprocessed get event or by
the length-of-stay timeout of the patient occupying it. -/
def bedOf : Ev → Option ℕ
  | .getSucceed _ bed _ => some bed
  | .losTimeout _ bed => some bed
  | _ => none

/-- The multiset of beds currently held by patients (outside the store). -/
def heldBeds (s : ModelState) : Multiset ℕ :=
  Multiset.filterMap (fun e => bedOf e.ev) (s.queue : Multiset Sched)

/-! Concrete single-run scenarios used to witness and refute claims.
All use `long_stay_prob = 1/10` and a constant classifier draw `1/2`
(so every patient is short-stay), `warm_up_period = 0`. -/

/-- One bed, run bound 10; every LOS sample is 30 hours. -/
def cfgTrunc : Config := ⟨1, 1/10, 10, 0⟩

/-- A single arrival at time 0 (next inter-arrival gap 100). -/
def envTrunc : Streams :=
  ⟨fun _ => 1/2, fun _ _ => 100, fun _ => 30, fun _ => 99⟩

/-- Two beds, run bound 10. -/
def cfgShared : Config := ⟨2, 1/10, 10, 0⟩

/-- Two simultaneous arrivals at time 0: the first short-stay LOS sample
is 6, the second is 7. -/
def envShared : Streams :=
  ⟨fun _ => 1/2, fun k _ => if k = 0 then 0 else 100,
   fun k => if k = 0 then 6 else 7, fun _ => 99⟩

/-- One bed, run bound 10. -/
def cfgArr : Config := ⟨1, 1/10, 10, 0⟩

/-- Arrivals at times 0 and 1; every LOS sample is 30, so the second
patient is still waiting for the bed when the run is cut off. -/
def envArr : Streams :=
  ⟨fun _ => 1/2, fun k _ => if k = 0 then 1 else 100, fun _ => 30, fun _ => 99⟩

/-- No beds at all, run bound 3. -/
def cfgIdle : Config := ⟨0, 1/10, 3, 0⟩

/-- Arrivals every hour; nobody can ever acquire a bed. -/
def envIdle : Streams :=
  ⟨fun _ => 1/2, fun _ _ => 1, fun _ => 30, fun _ => 99⟩

/-- A state in which a patient is about to resume holding bed 1 at hour
19 with a sampled stay of 2 hours, so the unadjusted discharge would fall
at hour 21 (the overnight rule fires). -/
def stOv : ModelState :=
  { initState cfgTrunc with now := 19, bed_los := 2 }

/-! Per-patient pathway phases.  A patient's pathway process sits at one
of six points: not yet created, created with its `Initialize` event
pending, blocked in the store's get queue, get succeeded but not yet
resumed, occupying a bed (stay timeout scheduled), or departed.  Each
phase pins down exactly which scheduled events and get-queue entries
belong to the patient, the exact shape of its sub-log, and its results
row. -/

/-- The results row of a patient that has not yet begun occupying a bed:
only patient id 1 has a row (the one `Model.__init__` seeds), still at
`(0.0, 0.0)`. -/
def rowInit (s : ModelState) (pid : ℕ) : Prop :=
  rowOf s pid = if pid = 1 then some (some 0, some 0) else none

/-- Not yet created by the arrival generator. -/
def phNone (s : ModelState) (pid : ℕ) : Prop :=
  (pid = 0 ∨ s.patient_counter < pid)
  ∧ pidEvs s pid = 0 ∧ gqFor s pid = [] ∧ logFor s pid = [] ∧ rowInit s pid

/-- Created; its `occupy_bed` process `Initialize` event is pending. -/
def phInit (s : ModelState) (pid : ℕ) : Prop :=
  1 ≤ pid ∧ pid ≤ s.patient_counter
  ∧ (∃ e : Sched, pidEvs s pid = {e} ∧ e.ev = Ev.procInit pid)
  ∧ gqFor s pid = [] ∧ logFor s pid = [] ∧ rowInit s pid

/-- Blocked in the store's get queue since time `sw`. -/
def phWait (s : ModelState) (pid : ℕ) : Prop :=
  1 ≤ pid ∧ pid ≤ s.patient_counter ∧ pidEvs s pid = 0
  ∧ ∃ (sw : ℚ) (pwa pwb : String),
      gqFor s pid = [(pid, sw)]
      ∧ logFor s pid = [entA pid pwa sw, entW pid pwb sw]
      ∧ rowInit s pid

/-- Get succeeded (a bed has left the store for this patient) but the
pathway process has not resumed yet. -/
def phAcq (s : ModelState) (pid : ℕ) : Prop :=
  1 ≤ pid ∧ pid ≤ s.patient_counter
  ∧ ∃ (e : Sched) (bed : ℕ) (sw : ℚ) (pwa pwb : String),
      pidEvs s pid = {e} ∧ e.ev = Ev.getSucceed pid bed sw
      ∧ gqFor s pid = []
      ∧ logFor s pid = [entA pid pwa sw, entW pid pwb sw]
      ∧ rowInit s pid

/-- Occupying a bed; the stay timeout is scheduled at `t1 + l` where `t1`
is the occupancy start and `l` the recorded length of stay. -/
def phBed (s : ModelState) (pid : ℕ) : Prop :=
  1 ≤ pid ∧ pid ≤ s.patient_counter
  ∧ ∃ (e : Sched) (bed : ℕ) (t0 t1 l : ℚ) (pwa pwb pwc : String) (ovl : List Entry),
      pidEvs s pid = {e} ∧ e.ev = Ev.losTimeout pid bed ∧ e.time = t1 + l
      ∧ gqFor s pid = []
      ∧ logFor s pid = [entA pid pwa t0, entW pid pwb t0, entB pid pwc t1 bed] ++ ovl
      ∧ (ovl = [] ∨ ∃ (tov : ℚ) (pwd : String), ovl = [entOV pid pwd tov bed])
      ∧ rowOf s pid = some (some (t1 - t0), some l)

/-- Departed: the full pathway is in the log and
`depart time - arrival time = (t1 - t0) + l = Queue Time Bed + Length of Stay`. -/
def phDone (s : ModelState) (pid : ℕ) : Prop :=
  1 ≤ pid ∧ pid ≤ s.patient_counter ∧ pidEvs s pid = 0 ∧ gqFor s pid = []
  ∧ ∃ (bed : ℕ) (t0 t1 l : ℚ) (pwa pwb pwc pwe pwf : String) (ovl : List Entry),
      logFor s pid = [entA pid pwa t0, entW pid pwb t0, entB pid pwc t1 bed]
          ++ ovl ++ [entC pid pwe (t1 + l) bed, entD pid pwf (t1 + l)]
      ∧ (ovl = [] ∨ ∃ (tov : ℚ) (pwd : String), ovl = [entOV pid pwd tov bed])
      ∧ rowOf s pid = some (some (t1 - t0), some l)

/-- Every patient is in exactly one of the six phases (stated as a
disjunction; the induction maintains it for every patient id). -/
def PatientInv (s : ModelState) (pid : ℕ) : Prop :=
  phNone s pid ∨ phInit s pid ∨ phWait s pid ∨ phAcq s pid ∨ phBed s pid ∨ phDone s pid

/-- The patient ids indexing `results_df`. -/
def resultIds (s : ModelState) : List ℕ := s.results.map (fun r => r.1)

/-- Every state component except the event queue, its counter and the
store (used to state frame lemmas compactly). -/
def coreAttrs (s : ModelState) :=
  (s.event_log, s.results, s.patient_counter, s.patients, s.now, s.bed_los,
   s.arrival, s.wait_bed, s.total_time, s.randIdx, s.arrIdx, s.shortIdx,
   s.longIdx)

end VidigiDES

namespace VidigiDES

/-! ### Scheduler infrastructure lemmas -/

theorem insertEv_coe (e : Sched) (q : List Sched) :
    ((insertEv e q : List Sched) : Multiset Sched) = e ::ₘ (q : Multiset Sched) := by
  induction q with
  | nil => rfl
  | cons f rest ih =>
    rw [insertEv]
    by_cases h : Sched.keyLt e f = true
    · rw [if_pos h, ← Multiset.cons_coe]
    · rw [if_neg h, ← Multiset.cons_coe, ← Multiset.cons_coe, ih]
      exact Multiset.cons_swap f e _

theorem schedule_queue (s : ModelState) (t : ℚ) (p : ℕ) (ev : Ev) :
    (((schedule s t p ev).queue : List Sched) : Multiset Sched)
      = (⟨t, p, s.nextSeq, ev⟩ : Sched) ::ₘ (s.queue : Multiset Sched) :=
  insertEv_coe _ _

theorem flushGets_eq (items : List ℕ) (gq : List (ℕ × ℚ)) :
    flushGets items gq =
      (items.drop gq.length, gq.drop items.length,
       (gq.zip items).map (fun x => (x.1.1, x.2, x.1.2))) := by
  induction items generalizing gq with
  | nil => cases gq <;> simp [flushGets]
  | cons b items ih =>
    cases gq with
    | nil => simp [flushGets]
    | cons w gq =>
      obtain ⟨pid, sw⟩ := w
      simp [flushGets, ih]

theorem schedGets_spec (ws : List (ℕ × ℕ × ℚ)) (st : ModelState) :
    coreAttrs (schedGets ws st) = coreAttrs st
    ∧ (schedGets ws st).storeItems = st.storeItems
    ∧ (schedGets ws st).getQueue = st.getQueue
    ∧ ∃ evs : List Sched,
        (((schedGets ws st).queue : List Sched) : Multiset Sched)
            = (st.queue : Multiset Sched) + (evs : Multiset Sched)
        ∧ List.Forall₂ (fun (e : Sched) (w : ℕ × ℕ × ℚ) =>
            e.ev = Ev.getSucceed w.1 w.2.1 w.2.2 ∧ e.time = st.now ∧ e.prio = 1)
            evs ws := by
  induction ws generalizing st with
  | nil =>
    refine ⟨rfl, rfl, rfl, [], ?_, List.Forall₂.nil⟩
    simp [schedGets]
  | cons w ws ih =>
    obtain ⟨hcore, hstore, hgq, evs, hq, hf⟩ :=
      ih (schedule st st.now 1 (.getSucceed w.1 w.2.1 w.2.2))
    refine ⟨hcore, hstore, hgq,
      (⟨st.now, 1, st.nextSeq, .getSucceed w.1 w.2.1 w.2.2⟩ : Sched) :: evs, ?_, ?_⟩
    · rw [schedGets, hq, schedule_queue, ← Multiset.cons_coe,
        Multiset.cons_add, Multiset.add_cons]
    · exact List.Forall₂.cons ⟨rfl, rfl, rfl⟩ hf

end VidigiDES

namespace VidigiDES

/-- The pairing predicate between scheduled get events and flushed
waiter/bed pairs. -/
def GetEvFor (t : ℚ) (e : Sched) (w : ℕ × ℕ × ℚ) : Prop :=
  e.ev = Ev.getSucceed w.1 w.2.1 w.2.2 ∧ e.time = t ∧ e.prio = 1

theorem triggerGet_spec (s : ModelState) :
    coreAttrs (triggerGet s) = coreAttrs s
    ∧ (triggerGet s).storeItems = s.storeItems.drop s.getQueue.length
    ∧ (triggerGet s).getQueue = s.getQueue.drop s.storeItems.length
    ∧ ∃ evs : List Sched,
        (((triggerGet s).queue : List Sched) : Multiset Sched)
            = (s.queue : Multiset Sched) + (evs : Multiset Sched)
        ∧ List.Forall₂ (GetEvFor s.now) evs
            ((s.getQueue.zip s.storeItems).map (fun x => (x.1.1, x.2, x.1.2))) := by
  have ht : triggerGet s
      = schedGets ((s.getQueue.zip s.storeItems).map (fun x => (x.1.1, x.2, x.1.2)))
          { s with storeItems := s.storeItems.drop s.getQueue.length,
                   getQueue := s.getQueue.drop s.storeItems.length } := by
    unfold triggerGet
    rw [flushGets_eq]
  rw [ht]
  exact schedGets_spec _ _

theorem triggerGet_log (s : ModelState) : (triggerGet s).event_log = s.event_log :=
  congrArg (fun t => t.1) (triggerGet_spec s).1

theorem triggerGet_results (s : ModelState) : (triggerGet s).results = s.results :=
  congrArg (fun t => t.2.1) (triggerGet_spec s).1

theorem triggerGet_counter (s : ModelState) :
    (triggerGet s).patient_counter = s.patient_counter :=
  congrArg (fun t => t.2.2.1) (triggerGet_spec s).1

theorem triggerGet_patients (s : ModelState) : (triggerGet s).patients = s.patients :=
  congrArg (fun t => t.2.2.2.1) (triggerGet_spec s).1

theorem triggerGet_now (s : ModelState) : (triggerGet s).now = s.now :=
  congrArg (fun t => t.2.2.2.2.1) (triggerGet_spec s).1

theorem stepSim_cases (cfg : Config) (env : Streams) (s : ModelState) :
    stepSim cfg env s = s
    ∨ ∃ e rest, s.queue = e :: rest
        ∧ stepSim cfg env s = execEv cfg env { s with queue := rest, now := e.time } e.ev := by
  rcases hq : s.queue with _ | ⟨e, rest⟩
  · left
    unfold stepSim
    rw [hq]
  · by_cases h : e.time < cfg.sim_duration + cfg.warm_up_period
    · right
      refine ⟨e, rest, rfl, ?_⟩
      unfold stepSim
      rw [hq]
      exact if_pos h
    · left
      unfold stepSim
      rw [hq]
      exact if_neg h

/-! ### Results-table (`results_df`) lemmas -/

theorem find_upsertQL (rows : List (ℕ × Option ℚ × Option ℚ)) (pid : ℕ) (v w : ℚ) :
    (upsertL (upsertQ rows pid v) pid w).find? (fun r => r.1 == pid)
      = some (pid, some v, some w) := by
  induction rows with
  | nil => simp [upsertQ, upsertL]
  | cons r rest ih =>
    obtain ⟨i, q, l⟩ := r
    by_cases h : i = pid
    · subst h
      simp [upsertQ, upsertL]
    · simp [upsertQ, upsertL, h, ih]

theorem find_upsertQ_ne (rows : List (ℕ × Option ℚ × Option ℚ)) (pid : ℕ) (v : ℚ)
    (pid' : ℕ) (h : pid' ≠ pid) :
    (upsertQ rows pid v).find? (fun r => r.1 == pid')
      = rows.find? (fun r => r.1 == pid') := by
  induction rows with
  | nil => simp [upsertQ, Ne.symm h]
  | cons r rest ih =>
    obtain ⟨i, q, l⟩ := r
    by_cases hi : i = pid
    · subst hi
      simp [upsertQ, Ne.symm h]
    · by_cases hi' : i = pid'
      · subst hi'
        simp [upsertQ, hi]
      · simp [upsertQ, hi, hi', ih]

theorem find_upsertL_ne (rows : List (ℕ × Option ℚ × Option ℚ)) (pid : ℕ) (v : ℚ)
    (pid' : ℕ) (h : pid' ≠ pid) :
    (upsertL rows pid v).find? (fun r => r.1 == pid')
      = rows.find? (fun r => r.1 == pid') := by
  induction rows with
  | nil => simp [upsertL, Ne.symm h]
  | cons r rest ih =>
    obtain ⟨i, q, l⟩ := r
    by_cases hi : i = pid
    · subst hi
      simp [upsertL, Ne.symm h]
    · by_cases hi' : i = pid'
      · subst hi'
        simp [upsertL, hi]
      · simp [upsertL, hi, hi', ih]

end VidigiDES

namespace VidigiDES

/-! ### Per-event execution spec lemmas -/

theorem execGen_spec (env : Streams) (s : ModelState) :
    (execGen env s).event_log = s.event_log
    ∧ (execGen env s).results = s.results
    ∧ (execGen env s).patient_counter = s.patient_counter + 1
    ∧ (execGen env s).patients = s.patients ++ [PatientRec.init (s.patient_counter + 1)]
    ∧ (execGen env s).now = s.now
    ∧ (execGen env s).storeItems = s.storeItems
    ∧ (execGen env s).getQueue = s.getQueue
    ∧ (execGen env s).queue
        = insertEv ⟨s.now + env.arrSample s.arrIdx s.now, 1, s.nextSeq + 1, Ev.genTimeout⟩
            (insertEv ⟨s.now, 0, s.nextSeq, Ev.procInit (s.patient_counter + 1)⟩ s.queue) :=
  ⟨rfl, rfl, rfl, rfl, rfl, rfl, rfl, rfl⟩

theorem execGetSucceed_spec (env : Streams) (s : ModelState) (pid bed : ℕ) (sw : ℚ) :
    (execGetSucceed env s pid bed sw).event_log
        = s.event_log ++ [entB pid (pathwayOf s pid) s.now bed]
          ++ (overnightRule env pid (pathwayOf s pid) bed s.now s.bed_los s.randIdx).logged.toList
    ∧ (execGetSucceed env s pid bed sw).results
        = upsertL (upsertQ s.results pid (s.now - sw)) pid
            (overnightRule env pid (pathwayOf s pid) bed s.now s.bed_los s.randIdx).bed_los
    ∧ (execGetSucceed env s pid bed sw).patient_counter = s.patient_counter
    ∧ (execGetSucceed env s pid bed sw).patients = s.patients
    ∧ (execGetSucceed env s pid bed sw).now = s.now
    ∧ (execGetSucceed env s pid bed sw).storeItems = s.storeItems
    ∧ (execGetSucceed env s pid bed sw).getQueue = s.getQueue
    ∧ (execGetSucceed env s pid bed sw).bed_los
        = (overnightRule env pid (pathwayOf s pid) bed s.now s.bed_los s.randIdx).bed_los
    ∧ (execGetSucceed env s pid bed sw).queue
        = insertEv
            ⟨s.now + (overnightRule env pid (pathwayOf s pid) bed s.now s.bed_los s.randIdx).bed_los,
             1, s.nextSeq, Ev.losTimeout pid bed⟩ s.queue :=
  ⟨rfl, rfl, rfl, rfl, rfl, rfl, rfl, rfl, rfl⟩

theorem execLos_spec (s : ModelState) (pid bed : ℕ) :
    (execLos s pid bed).event_log
        = s.event_log ++ [entC pid (pathwayOf s pid) s.now bed, entD pid (pathwayOf s pid) s.now]
    ∧ (execLos s pid bed).results = s.results
    ∧ (execLos s pid bed).patient_counter = s.patient_counter
    ∧ (execLos s pid bed).patients = s.patients
    ∧ (execLos s pid bed).now = s.now
    ∧ (execLos s pid bed).storeItems = s.storeItems ++ [bed]
    ∧ (execLos s pid bed).getQueue = s.getQueue
    ∧ (execLos s pid bed).queue = insertEv ⟨s.now, 1, s.nextSeq, Ev.putEvent⟩ s.queue := by
  refine ⟨?_, rfl, rfl, rfl, rfl, rfl, rfl, rfl⟩
  show (s.event_log ++ [entC pid (pathwayOf s pid) s.now bed])
      ++ [entD pid (pathwayOf s pid) s.now] = _
  rw [List.append_assoc]
  rfl

theorem execProcInit_spec (cfg : Config) (env : Streams) (s : ModelState) (pid : ℕ) :
    ∃ pw : String,
      (execProcInit cfg env s pid).event_log
          = s.event_log ++ [entA pid pw s.now, entW pid pw s.now]
      ∧ (execProcInit cfg env s pid).results = s.results
      ∧ (execProcInit cfg env s pid).patient_counter = s.patient_counter
      ∧ (execProcInit cfg env s pid).patients
          = setPathway s.patients pid
              (if cfg.long_stay_prob < env.rand s.randIdx then "short-stay" else "long-stay")
      ∧ (execProcInit cfg env s pid).now = s.now
      ∧ (execProcInit cfg env s pid).storeItems
          = s.storeItems.drop (s.getQueue ++ [(pid, s.now)]).length
      ∧ (execProcInit cfg env s pid).getQueue
          = (s.getQueue ++ [(pid, s.now)]).drop s.storeItems.length
      ∧ ∃ evs : List Sched,
          (((execProcInit cfg env s pid).queue : List Sched) : Multiset Sched)
              = (s.queue : Multiset Sched) + (evs : Multiset Sched)
          ∧ List.Forall₂ (GetEvFor s.now) evs
              (((s.getQueue ++ [(pid, s.now)]).zip s.storeItems).map
                (fun x => (x.1.1, x.2, x.1.2))) := by
  by_cases hc : cfg.long_stay_prob < env.rand s.randIdx
  · have he : execProcInit cfg env s pid = triggerGet
        { s with randIdx := s.randIdx + 1,
                 bed_los := env.shortLos s.shortIdx,
                 shortIdx := s.shortIdx + 1,
                 patients := setPathway s.patients pid "short-stay",
                 arrival := s.now,
                 event_log := (s.event_log
                   ++ [entA pid (pathwayOf
                        { s with patients := setPathway s.patients pid "short-stay" } pid) s.now])
                   ++ [entW pid (pathwayOf
                        { s with patients := setPathway s.patients pid "short-stay" } pid) s.now],
                 getQueue := s.getQueue ++ [(pid, s.now)] } := by
      simp only [execProcInit, hc, if_true]
      rfl
    refine ⟨pathwayOf { s with patients := setPathway s.patients pid "short-stay" } pid,
      ?_, ?_, ?_, ?_, ?_, ?_, ?_, ?_⟩
    · rw [he, triggerGet_log]
      simp
    · rw [he, triggerGet_results]
    · rw [he, triggerGet_counter]
    · rw [he, triggerGet_patients, if_pos hc]
    · rw [he, triggerGet_now]
    · rw [he]
      exact (triggerGet_spec _).2.1
    · rw [he]
      exact (triggerGet_spec _).2.2.1
    · rw [he]
      exact (triggerGet_spec _).2.2.2
  · have he : execProcInit cfg env s pid = triggerGet
        { s with randIdx := s.randIdx + 1,
                 bed_los := env.longLos s.longIdx,
                 longIdx := s.longIdx + 1,
                 patients := setPathway s.patients pid "long-stay",
                 arrival := s.now,
                 event_log := (s.event_log
                   ++ [entA pid (pathwayOf
                        { s with patients := setPathway s.patients pid "long-stay" } pid) s.now])
                   ++ [entW pid (pathwayOf
                        { s with patients := setPathway s.patients pid "long-stay" } pid) s.now],
                 getQueue := s.getQueue ++ [(pid, s.now)] } := by
      simp only [execProcInit, hc, if_false]
      rfl
    refine ⟨pathwayOf { s with patients := setPathway s.patients pid "long-stay" } pid,
      ?_, ?_, ?_, ?_, ?_, ?_, ?_, ?_⟩
    · rw [he, triggerGet_log]
      simp
    · rw [he, triggerGet_results]
    · rw [he, triggerGet_counter]
    · rw [he, triggerGet_patients, if_neg hc]
    · rw [he, triggerGet_now]
    · rw [he]
      exact (triggerGet_spec _).2.1
    · rw [he]
      exact (triggerGet_spec _).2.2.1
    · rw [he]
      exact (triggerGet_spec _).2.2.2

end VidigiDES

namespace VidigiDES

/-! ### Claims -/

/-- C5 (corrected): the claim asserts the two Lognormal samplers of one
Model are constructed with distinct seeds; in fact both receive the same
seed `run_number * g.random_number_set` (lines 152-159), so they are
identically seeded within a Model.  Across two different run numbers each
sampler does receive a different seed (provided `random_number_set ≠ 0`),
and the two NSPP seeds `run*42` and `run*88` also differ across runs. -/
theorem claimC5 :
    (∀ run rns : ℕ, shortLosSeed run rns = longLosSeed run rns)
    ∧ (∀ r1 r2 rns : ℕ, r1 ≠ r2 → rns ≠ 0 →
        shortLosSeed r1 rns ≠ shortLosSeed r2 rns
        ∧ longLosSeed r1 rns ≠ longLosSeed r2 rns)
    ∧ (∀ r1 r2 rns : ℕ, r1 ≠ r2 →
        (seedsOf r1 rns).nspp1 ≠ (seedsOf r2 rns).nspp1
        ∧ (seedsOf r1 rns).nspp2 ≠ (seedsOf r2 rns).nspp2) := by
  refine ⟨fun _ _ => rfl, ?_, ?_⟩
  · intro r1 r2 rns hne hrns
    constructor <;>
      exact fun h => hne (Nat.eq_of_mul_eq_mul_right (Nat.pos_of_ne_zero hrns) h)
  · intro r1 r2 rns hne
    refine ⟨fun h => hne ?_, fun h => hne ?_⟩
    · have h' : r1 * 42 = r2 * 42 := h
      omega
    · have h' : r1 * 88 = r2 * 88 := h
      omega

/-- C5 counterexample: at run 1 with `random_number_set = 42` (its
default), the short-stay and long-stay Lognormal seeds coincide, refuting
the claimed within-model distinctness. -/
theorem claimC5_counterexample : shortLosSeed 1 42 = longLosSeed 1 42 := rfl

/-- C5 witness: the cross-run part of the amended claim at runs 0 and 1. -/
theorem claimC5_witness :
    shortLosSeed 0 42 ≠ shortLosSeed 1 42 ∧ longLosSeed 0 42 ≠ longLosSeed 1 42 :=
  claimC5.2.1 0 1 42 (by decide) (by decide)

/-- C8 (confirmed): a single run is a pure function of the configuration
and of the sampler streams, and the streams are determined by the derived
seeds (`random.seed(run)`, NSPP seeds `run*42`, `run*88`, Lognormal seed
`run*random_number_set`); hence two executions of the same run index
produce identical event logs, entry for entry. -/
theorem claimC8 : ∀ (streamsOf : Seeds → Streams) (cfg : Config)
    (rns run fuel : ℕ) (env1 env2 : Streams),
    env1 = streamsOf (seedsOf run rns) → env2 = streamsOf (seedsOf run rns) →
    runModelLog cfg env1 fuel = runModelLog cfg env2 fuel := by
  intro streamsOf cfg rns run fuel env1 env2 h1 h2
  rw [h1, h2]

/-- C8 witness: a concrete double execution of run 1. -/
theorem claimC8_witness :
    runModelLog cfgShared envShared 15 = runModelLog cfgShared envShared 15 :=
  claimC8 (fun _ => envShared) cfgShared 42 1 15 envShared envShared rfl rfl

/-- C2 (confirmed): at the moment of occupying a bed, with
`end = now + sampled_los`: if `end mod 24 ≥ 12` the stay is extended by
`24 - (end mod 24)` plus a uniform draw in `[2, 5)` (namely
`2 + 3*r` for the next `random()` value `r ∈ [0,1)`), an `overnight_stay`
entry is logged whose time is the original pre-extension end and whose
resource id is the occupied bed, and the `random` stream advances by one;
if `end mod 24 < 12` nothing changes.  The rule is applied exactly once
per patient: the resumed pathway schedules its stay timeout at
`now + extended_los` and appends at most the single optional overnight
entry, without re-checking the extended end time. -/
theorem claimC2 : ∀ (env : Streams) (s : ModelState) (pid bed : ℕ) (sw : ℚ),
    (12 ≤ pymod (s.now + s.bed_los) 24 →
        (overnightRule env pid (pathwayOf s pid) bed s.now s.bed_los s.randIdx).bed_los
            = s.bed_los + (24 - pymod (s.now + s.bed_los) 24)
              + (2 + 3 * env.rand s.randIdx)
        ∧ (overnightRule env pid (pathwayOf s pid) bed s.now s.bed_los s.randIdx).logged
            = some (entOV pid (pathwayOf s pid) (s.now + s.bed_los) bed)
        ∧ (overnightRule env pid (pathwayOf s pid) bed s.now s.bed_los s.randIdx).randIdx
            = s.randIdx + 1)
    ∧ (pymod (s.now + s.bed_los) 24 < 12 →
        overnightRule env pid (pathwayOf s pid) bed s.now s.bed_los s.randIdx
          = ⟨s.bed_los, none, s.randIdx⟩)
    ∧ (0 ≤ env.rand s.randIdx → env.rand s.randIdx < 1 →
        2 ≤ 2 + 3 * env.rand s.randIdx ∧ 2 + 3 * env.rand s.randIdx < 5)
    ∧ (execGetSucceed env s pid bed sw).event_log
        = s.event_log ++ [entB pid (pathwayOf s pid) s.now bed]
          ++ (overnightRule env pid (pathwayOf s pid) bed s.now s.bed_los s.randIdx).logged.toList
    ∧ (execGetSucceed env s pid bed sw).queue
        = insertEv
            ⟨s.now + (overnightRule env pid (pathwayOf s pid) bed s.now s.bed_los s.randIdx).bed_los,
             1, s.nextSeq, Ev.losTimeout pid bed⟩ s.queue := by
  intro env s pid bed sw
  refine ⟨?_, ?_, ?_, rfl, rfl⟩
  · intro h
    rw [overnightRule, if_pos h]
    refine ⟨by ring, rfl, rfl⟩
  · intro h
    rw [overnightRule, if_neg (not_le.mpr h)]
  · intro h0 h1
    constructor <;> linarith

/-- C2 witness: a patient occupying bed 1 at hour 19 with a 2-hour
sampled stay (unadjusted end 21, `21 mod 24 = 21 ≥ 12`): the rule fires,
logs `overnight_stay` at time 21 tagged to bed 1, and the extension draw
lies in `[2, 5)`. -/
theorem claimC2_witness :
    (overnightRule envTrunc 2 (pathwayOf stOv 2) 1 stOv.now stOv.bed_los stOv.randIdx).bed_los
        = stOv.bed_los + (24 - pymod (stOv.now + stOv.bed_los) 24)
          + (2 + 3 * envTrunc.rand stOv.randIdx)
    ∧ (overnightRule envTrunc 2 (pathwayOf stOv 2) 1 stOv.now stOv.bed_los stOv.randIdx).logged
        = some (entOV 2 (pathwayOf stOv 2) (stOv.now + stOv.bed_los) 1)
    ∧ 2 ≤ 2 + 3 * envTrunc.rand stOv.randIdx
    ∧ 2 + 3 * envTrunc.rand stOv.randIdx < 5 := by
  obtain ⟨hfire, _, hrand, _, _⟩ := claimC2 envTrunc stOv 2 1 0
  have hf := hfire (by
    show (12:ℚ) ≤ pymod (19 + 2) 24
    rw [pymod]
    norm_num)
  have hr := hrand (by
    show (0:ℚ) ≤ 1/2
    norm_num)
    (by
    show (1:ℚ)/2 < 1
    norm_num)
  exact ⟨hf.1, hf.2.1, hr.1, hr.2⟩

end VidigiDES

namespace VidigiDES

theorem setPathway_fields (ps : List PatientRec) (pid : ℕ) (pw : String) :
    ∀ p ∈ setPathway ps pid pw, ∃ q ∈ ps,
      p.arrival = q.arrival ∧ p.wait_bed = q.wait_bed ∧ p.bed_los = q.bed_los
      ∧ p.total_time = q.total_time := by
  intro p hp
  rw [setPathway] at hp
  obtain ⟨q, hq, rfl⟩ := List.mem_map.mp hp
  refine ⟨q, hq, ?_⟩
  by_cases h : q.identifier = pid <;> simp [h]

theorem upsertQ_ne_nil (rows : List (ℕ × Option ℚ × Option ℚ)) (pid : ℕ) (v : ℚ) :
    upsertQ rows pid v ≠ [] := by
  cases rows with
  | nil => simp [upsertQ]
  | cons r rest =>
    obtain ⟨i, q, l⟩ := r
    by_cases h : i = pid <;> simp [upsertQ, h]

theorem upsertL_ne_nil (rows : List (ℕ × Option ℚ × Option ℚ)) (pid : ℕ) (v : ℚ) :
    upsertL rows pid v ≠ [] := by
  cases rows with
  | nil => simp [upsertL]
  | cons r rest =>
    obtain ⟨i, q, l⟩ := r
    by_cases h : i = pid <;> simp [upsertL, h]

/-- C9 (confirmed): the duration a patient stays in bed and the Length of
Stay written to its results row are read from the shared Model attribute
`self.bed_los` at the moment the patient resumes after acquiring its bed
(after the overnight adjustment is applied to that shared value), not from
a variable local to the patient: resuming after `beds.get()` records
`Queue Time Bed = now - start_wait` and `Length of Stay = bed_los` and
schedules the stay timeout at `now + bed_los` for the current shared
`bed_los`, whatever pathway process last wrote it.  In particular, in the
concrete two-bed run with two simultaneous arrivals, patient 2's pathway
process starts (URGENT `Initialize`) before patient 1's succeeded get
event is processed, so patient 1 serves and records patient 2's sample
(7) instead of its own (6). -/
theorem claimC9 :
    (∀ (env : Streams) (s : ModelState) (pid bed : ℕ) (sw : ℚ),
        (execGetSucceed env s pid bed sw).bed_los
            = (overnightRule env pid (pathwayOf s pid) bed s.now s.bed_los s.randIdx).bed_los
        ∧ rowOf (execGetSucceed env s pid bed sw) pid
            = some (some (s.now - sw),
                some (overnightRule env pid (pathwayOf s pid) bed s.now s.bed_los s.randIdx).bed_los)
        ∧ (execGetSucceed env s pid bed sw).queue
            = insertEv
                ⟨s.now
                   + (overnightRule env pid (pathwayOf s pid) bed s.now s.bed_los s.randIdx).bed_los,
                 1, s.nextSeq, Ev.losTimeout pid bed⟩ s.queue)
    ∧ (simSteps cfgShared envShared 15).results = [(1, some 0, some 7), (2, some 0, some 7)]
    ∧ envShared.shortLos 0 = 6
    ∧ envShared.shortLos 1 = 7
    ∧ logNames (simSteps cfgShared envShared 15) 1
        = ["arrival", "bed_wait_begins", "bed_occupy_begins",
           "bed_occupy_complete", "depart"] := by
  refine ⟨?_, by with_unfolding_all rfl, rfl, rfl, by with_unfolding_all rfl⟩
  intro env s pid bed sw
  refine ⟨rfl, ?_, rfl⟩
  have hr : (execGetSucceed env s pid bed sw).results
      = upsertL (upsertQ s.results pid (s.now - sw)) pid
          (overnightRule env pid (pathwayOf s pid) bed s.now s.bed_los s.randIdx).bed_los := rfl
  rw [rowOf, hr, find_upsertQL]
  rfl

/-- C7 (code bug): the pathway process never mutates the patient's timing
attributes.  `occupy_bed` assigns `self.arrival`, `self.wait_bed`,
`self.bed_los` and `self.total_time` on the Model object, not on the
Patient, so in every reachable state every `Patient` object still carries
its construction-time `-np.inf` (here `none`) in all four timing fields;
only `pathway_type` is ever set on the patient. -/
theorem claimC7 : ∀ (cfg : Config) (env : Streams) (k : ℕ),
    ∀ p ∈ (simSteps cfg env k).patients,
      p.arrival = none ∧ p.wait_bed = none ∧ p.bed_los = none ∧ p.total_time = none := by
  intro cfg env k
  induction k with
  | zero =>
    intro p hp
    simp [simSteps, initState] at hp
  | succ k ih =>
    intro p hp
    rw [simSteps] at hp
    rcases stepSim_cases cfg env (simSteps cfg env k) with h | ⟨e, rest, hq, h⟩
    · rw [h] at hp
      exact ih p hp
    · rw [h] at hp
      rcases e with ⟨t, pr, sq, ev⟩
      cases ev with
      | genInit =>
        simp only [execEv] at hp
        rw [(execGen_spec env _).2.2.2.1] at hp
        rcases List.mem_append.mp hp with h1 | h1
        · exact ih p h1
        · rw [List.mem_singleton.mp h1]
          exact ⟨rfl, rfl, rfl, rfl⟩
      | genTimeout =>
        simp only [execEv] at hp
        rw [(execGen_spec env _).2.2.2.1] at hp
        rcases List.mem_append.mp hp with h1 | h1
        · exact ih p h1
        · rw [List.mem_singleton.mp h1]
          exact ⟨rfl, rfl, rfl, rfl⟩
      | procInit pid =>
        simp only [execEv] at hp
        obtain ⟨pw, hlog, hres, hcnt, hpat, hrest⟩ := execProcInit_spec cfg env _ pid
        rw [hpat] at hp
        obtain ⟨q, hq1, e1, e2, e3, e4⟩ := setPathway_fields _ _ _ p hp
        obtain ⟨f1, f2, f3, f4⟩ := ih q hq1
        exact ⟨e1.trans f1, e2.trans f2, e3.trans f3, e4.trans f4⟩
      | getSucceed pid bed sw =>
        simp only [execEv] at hp
        exact ih p hp
      | putEvent =>
        simp only [execEv] at hp
        rw [triggerGet_patients] at hp
        exact ih p hp
      | losTimeout pid bed =>
        simp only [execEv] at hp
        exact ih p hp

/-- C7 witness: in the concrete two-patient run, patient 1 has completed
its whole pathway (departed at time 7), yet its record still holds the
construction defaults in all four timing fields. -/
theorem claimC7_witness :
    (⟨1, none, none, none, none, "short-stay"⟩ : PatientRec).arrival = none
    ∧ (⟨1, none, none, none, none, "short-stay"⟩ : PatientRec).wait_bed = none
    ∧ (⟨1, none, none, none, none, "short-stay"⟩ : PatientRec).bed_los = none
    ∧ (⟨1, none, none, none, none, "short-stay"⟩ : PatientRec).total_time = none :=
  claimC7 cfgShared envShared 15 ⟨1, none, none, none, none, "short-stay"⟩
    (by with_unfolding_all exact List.mem_cons_self _ _)

end VidigiDES

namespace VidigiDES

/-- C10 (confirmed): `Model.__init__` seeds `results_df` with the single
row `Patient ID 1, Queue Time Bed 0.0, Length of Stay 0.0`; the table is
only ever upserted, hence never empty in any reachable state; and a run in
which no patient ever begins occupying a bed leaves the table exactly at
that seeded row, so `calculate_run_results` reports a mean queue time of
0 and the trial summary records an `Arrivals` value of 1. -/
theorem claimC10 : ∀ (cfg : Config) (env : Streams) (k : ℕ),
    (initState cfg).results = [(1, some 0, some 0)]
    ∧ (simSteps cfg env k).results ≠ []
    ∧ ((∀ e ∈ (simSteps cfg env k).event_log, e.event ≠ "bed_occupy_begins") →
        (simSteps cfg env k).results = [(1, some 0, some 0)]
        ∧ meanQTimeBed (simSteps cfg env k) = 0
        ∧ arrivalsValue (simSteps cfg env k) = 1) := by
  intro cfg env k
  have hmain : ∀ n : ℕ,
      ((simSteps cfg env n).results ≠ [])
      ∧ ((∀ e ∈ (simSteps cfg env n).event_log, e.event ≠ "bed_occupy_begins") →
          (simSteps cfg env n).results = [(1, some 0, some 0)]) := by
    intro n
    induction n with
    | zero => exact ⟨by simp [simSteps, initState], fun _ => rfl⟩
    | succ n ih =>
      rw [simSteps]
      rcases stepSim_cases cfg env (simSteps cfg env n) with h | ⟨e, rest, hq, h⟩
      · rw [h]
        exact ih
      · rw [h]
        rcases e with ⟨t, pr, sq, ev⟩
        cases ev with
        | genInit =>
          simp only [execEv]
          refine ⟨?_, ?_⟩
          · rw [(execGen_spec env _).2.1]
            exact ih.1
          · intro hno
            rw [(execGen_spec env _).2.1]
            apply ih.2
            intro x hx
            apply hno
            rw [(execGen_spec env _).1]
            exact hx
        | genTimeout =>
          simp only [execEv]
          refine ⟨?_, ?_⟩
          · rw [(execGen_spec env _).2.1]
            exact ih.1
          · intro hno
            rw [(execGen_spec env _).2.1]
            apply ih.2
            intro x hx
            apply hno
            rw [(execGen_spec env _).1]
            exact hx
        | procInit pid =>
          simp only [execEv]
          obtain ⟨pw, hlog, hres, hrest⟩ := execProcInit_spec cfg env _ pid
          refine ⟨?_, ?_⟩
          · rw [hres]
            exact ih.1
          · intro hno
            rw [hres]
            apply ih.2
            intro x hx
            apply hno
            rw [hlog]
            exact List.mem_append_left _ hx
        | getSucceed pid bed sw =>
          simp only [execEv]
          refine ⟨upsertL_ne_nil _ _ _, ?_⟩
          intro hno
          exfalso
          have hm : entB pid (pathwayOf { simSteps cfg env n with queue := rest, now := t } pid)
              ({ simSteps cfg env n with queue := rest, now := t } : ModelState).now bed
              ∈ (execGetSucceed env { simSteps cfg env n with queue := rest, now := t }
                  pid bed sw).event_log := by
            rw [(execGetSucceed_spec env _ pid bed sw).1]
            exact List.mem_append_left _ (List.mem_append_right _ (List.mem_singleton_self _))
          exact hno _ hm rfl
        | putEvent =>
          refine ⟨?_, ?_⟩
          · show (triggerGet _).results ≠ []
            rw [triggerGet_results]
            exact ih.1
          · intro hno
            show (triggerGet _).results = _
            rw [triggerGet_results]
            apply ih.2
            intro x hx
            apply hno
            show x ∈ (triggerGet _).event_log
            rw [triggerGet_log]
            exact hx
        | losTimeout pid bed =>
          simp only [execEv]
          refine ⟨?_, ?_⟩
          · rw [(execLos_spec _ pid bed).2.1]
            exact ih.1
          · intro hno
            rw [(execLos_spec _ pid bed).2.1]
            apply ih.2
            intro x hx
            apply hno
            rw [(execLos_spec _ pid bed).1]
            exact List.mem_append_left _ hx
  refine ⟨rfl, (hmain k).1, fun hno => ?_⟩
  have hres := (hmain k).2 hno
  refine ⟨hres, ?_, ?_⟩
  · rw [meanQTimeBed, hres]
    norm_num [meanColumn]
    simp
  · rw [arrivalsValue, hres]
    rfl

/-- C10 witness: a run with no beds at all: three patients are created,
none ever begins occupying, and the run still reports one results row,
mean queue time 0 and an `Arrivals` value of 1. -/
theorem claimC10_witness :
    (simSteps cfgIdle envIdle 12).results = [(1, some 0, some 0)]
    ∧ meanQTimeBed (simSteps cfgIdle envIdle 12) = 0
    ∧ arrivalsValue (simSteps cfgIdle envIdle 12) = 1 :=
  (claimC10 cfgIdle envIdle 12).2.2 (by
    have hall : (simSteps cfgIdle envIdle 12).event_log.all
        (fun e => !(e.event == "bed_occupy_begins")) = true := by
      with_unfolding_all rfl
    intro e he
    simpa using List.all_eq_true.mp hall e he)

end VidigiDES

namespace VidigiDES

/-! ### C1: bed-pool accounting -/

theorem heldBeds_eq (s : ModelState) :
    heldBeds s = ((s.queue.filterMap (fun e => bedOf e.ev) : List ℕ) : Multiset ℕ) :=
  Multiset.filterMap_coe _ _

theorem filterMap_add_multiset {α β : Type} (f : α → Option β) (s t : Multiset α) :
    Multiset.filterMap f (s + t) = Multiset.filterMap f s + Multiset.filterMap f t := by
  refine Quotient.inductionOn₂ s t (fun l1 l2 => ?_)
  show Multiset.filterMap f ((l1 : Multiset α) + (l2 : Multiset α))
      = Multiset.filterMap f (l1 : Multiset α) + Multiset.filterMap f (l2 : Multiset α)
  rw [Multiset.coe_add, Multiset.filterMap_coe, Multiset.filterMap_coe,
    Multiset.filterMap_coe, List.filterMap_append, ← Multiset.coe_add]

theorem zip_snd_take (gq : List (ℕ × ℚ)) (items : List ℕ) :
    (((gq.zip items).map (fun x => (x.1.1, x.2, x.1.2))).map (fun w => w.2.1))
      = items.take gq.length := by
  induction gq generalizing items with
  | nil => simp
  | cons w gq ih =>
    cases items with
    | nil => simp
    | cons b items => simp [ih]

theorem forall2_beds {t : ℚ} : ∀ {evs : List Sched} {ws : List (ℕ × ℕ × ℚ)},
    List.Forall₂ (GetEvFor t) evs ws →
    evs.filterMap (fun e => bedOf e.ev) = ws.map (fun w => w.2.1) := by
  intro evs ws h
  induction h with
  | nil => rfl
  | cons h1 h2 ih =>
    rename_i a w l1 l2
    rw [List.filterMap_cons, h1.1]
    show w.2.1 :: List.filterMap (fun e => bedOf e.ev) l1 = _
    rw [ih, List.map_cons]

theorem flushAccount (store : List ℕ) (gq : List (ℕ × ℚ)) {evs : List Sched} {t : ℚ}
    (hf : List.Forall₂ (GetEvFor t) evs
        ((gq.zip store).map (fun x => (x.1.1, x.2, x.1.2)))) :
    ((store.drop gq.length : List ℕ) : Multiset ℕ)
      + ((evs.filterMap (fun e => bedOf e.ev) : List ℕ) : Multiset ℕ)
      = (store : Multiset ℕ) := by
  rw [forall2_beds hf, zip_snd_take, add_comm, Multiset.coe_add, List.take_append_drop]

theorem cons_eq_single_add (b : ℕ) (X : Multiset ℕ) : b ::ₘ X = ([b] : List ℕ) + X := by
  rw [← Multiset.singleton_add]
  rfl

/-- C1 (confirmed): the store is populated with exactly `n_beds` distinct
bed ids `1..n_beds`; in every reachable state the store contents plus the
beds currently held by patients (carried by succeeded get events and
in-bed stay timeouts) form exactly that multiset, hence the held beds are
pairwise distinct (no bed is ever held by two patients, nor held and in
the store at once) and at most `n_beds` beds are held at any instant. -/
theorem claimC1 : ∀ (cfg : Config) (env : Streams) (k : ℕ),
    (initState cfg).storeItems = List.range' 1 cfg.n_beds
    ∧ (initState cfg).storeItems.length = cfg.n_beds
    ∧ (initState cfg).storeItems.Nodup
    ∧ ((simSteps cfg env k).storeItems : Multiset ℕ) + heldBeds (simSteps cfg env k)
        = ((List.range' 1 cfg.n_beds : List ℕ) : Multiset ℕ)
    ∧ (heldBeds (simSteps cfg env k)).Nodup
    ∧ Multiset.card (heldBeds (simSteps cfg env k)) ≤ cfg.n_beds := by
  intro cfg env k
  have hinv : ∀ n : ℕ,
      ((simSteps cfg env n).storeItems : Multiset ℕ) + heldBeds (simSteps cfg env n)
        = ((List.range' 1 cfg.n_beds : List ℕ) : Multiset ℕ) := by
    intro n
    induction n with
    | zero =>
      rw [heldBeds_eq]
      show ((List.range' 1 cfg.n_beds : List ℕ) : Multiset ℕ) + (([] : List ℕ) : Multiset ℕ) = _
      simp
    | succ n ih =>
      rw [simSteps]
      rcases stepSim_cases cfg env (simSteps cfg env n) with h | ⟨e, rest, hq, h⟩
      · rw [h]
        exact ih
      · rw [h]
        simp only [heldBeds] at ih ⊢
        rw [hq, ← Multiset.cons_coe] at ih
        rcases e with ⟨t, pr, sq, ev⟩
        cases ev with
        | genInit =>
          rw [Multiset.filterMap_cons_none _ _ rfl] at ih
          simp only [execEv]
          rw [(execGen_spec env _).2.2.2.2.2.2.2, insertEv_coe, insertEv_coe,
            Multiset.filterMap_cons_none _ _ rfl, Multiset.filterMap_cons_none _ _ rfl]
          exact ih
        | genTimeout =>
          rw [Multiset.filterMap_cons_none _ _ rfl] at ih
          simp only [execEv]
          rw [(execGen_spec env _).2.2.2.2.2.2.2, insertEv_coe, insertEv_coe,
            Multiset.filterMap_cons_none _ _ rfl, Multiset.filterMap_cons_none _ _ rfl]
          exact ih
        | procInit pid =>
          rw [Multiset.filterMap_cons_none _ _ rfl] at ih
          simp only [execEv]
          obtain ⟨pw, hlog, hres, hcnt, hpat, hnow, hstore, hgq, evs, hqm, hff⟩ :=
            execProcInit_spec cfg env { simSteps cfg env n with queue := rest, now := t } pid
          rw [hstore, hqm, filterMap_add_multiset, Multiset.filterMap_coe]
          have hacc := flushAccount
            ({ simSteps cfg env n with queue := rest, now := t } : ModelState).storeItems
            (({ simSteps cfg env n with queue := rest, now := t } : ModelState).getQueue
              ++ [(pid, ({ simSteps cfg env n with queue := rest, now := t } : ModelState).now)])
            hff
          calc ((simSteps cfg env n).storeItems.drop
                  ((simSteps cfg env n).getQueue ++ [(pid, t)]).length : List ℕ)
                  + (Multiset.filterMap (fun e => bedOf e.ev) (rest : Multiset Sched)
                     + (evs.filterMap (fun e => bedOf e.ev) : List ℕ))
              = (((simSteps cfg env n).storeItems.drop
                  ((simSteps cfg env n).getQueue ++ [(pid, t)]).length : List ℕ)
                  + (evs.filterMap (fun e => bedOf e.ev) : List ℕ))
                  + Multiset.filterMap (fun e => bedOf e.ev) (rest : Multiset Sched) := by
                abel
            _ = ((simSteps cfg env n).storeItems : Multiset ℕ)
                  + Multiset.filterMap (fun e => bedOf e.ev) (rest : Multiset Sched) := by
                rw [hacc]
            _ = _ := ih
        | getSucceed pid bed sw =>
          simp only [execEv]
          rw [(execGetSucceed_spec env _ pid bed sw).2.2.2.2.2.2.2.2, insertEv_coe]
          exact ih
        | putEvent =>
          rw [Multiset.filterMap_cons_none _ _ rfl] at ih
          simp only [execEv]
          obtain ⟨hcore, hstore, hgq, evs, hqm, hff⟩ :=
            triggerGet_spec { simSteps cfg env n with queue := rest, now := t }
          rw [hstore, hqm, filterMap_add_multiset, Multiset.filterMap_coe]
          have hacc := flushAccount
            ({ simSteps cfg env n with queue := rest, now := t } : ModelState).storeItems
            ({ simSteps cfg env n with queue := rest, now := t } : ModelState).getQueue
            hff
          calc ((simSteps cfg env n).storeItems.drop (simSteps cfg env n).getQueue.length : List ℕ)
                  + (Multiset.filterMap (fun e => bedOf e.ev) (rest : Multiset Sched)
                     + (evs.filterMap (fun e => bedOf e.ev) : List ℕ))
              = (((simSteps cfg env n).storeItems.drop
                    (simSteps cfg env n).getQueue.length : List ℕ)
                  + (evs.filterMap (fun e => bedOf e.ev) : List ℕ))
                  + Multiset.filterMap (fun e => bedOf e.ev) (rest : Multiset Sched) := by
                abel
            _ = ((simSteps cfg env n).storeItems : Multiset ℕ)
                  + Multiset.filterMap (fun e => bedOf e.ev) (rest : Multiset Sched) := by
                rw [hacc]
            _ = _ := ih
        | losTimeout pid bed =>
          rw [Multiset.filterMap_cons_some (fun (e : Sched) => bedOf e.ev)
            ⟨t, pr, sq, Ev.losTimeout pid bed⟩ (rest : Multiset Sched) rfl,
            cons_eq_single_add] at ih
          simp only [execEv]
          rw [(execLos_spec _ pid bed).2.2.2.2.2.2.2, insertEv_coe,
            Multiset.filterMap_cons_none _ _ rfl,
            (execLos_spec _ pid bed).2.2.2.2.2.1, ← Multiset.coe_add, add_assoc]
          exact ih
  have hle : heldBeds (simSteps cfg env k)
      ≤ ((List.range' 1 cfg.n_beds : List ℕ) : Multiset ℕ) := by
    rw [← hinv k]
    exact Multiset.le_add_left _ _
  have hnd : (heldBeds (simSteps cfg env k)).Nodup :=
    Multiset.nodup_of_le hle (Multiset.coe_nodup.mpr (List.nodup_range' 1 cfg.n_beds 1 (by norm_num)))
  refine ⟨rfl, List.length_range' .., List.nodup_range' 1 cfg.n_beds 1 (by norm_num),
    hinv k, hnd, ?_⟩
  have := Multiset.card_le_card hle
  rwa [Multiset.coe_card, List.length_range'] at this

/-! ### Bookkeeping lemmas for the per-patient phase invariant -/

theorem logFor_append (s s' : ModelState) (pid : ℕ) (l : List Entry)
    (h : s'.event_log = s.event_log ++ l) :
    logFor s' pid = logFor s pid ++ l.filter (fun e => e.patient == pid) := by
  simp [logFor, h, List.filter_append]

theorem mem_upsertQ (rows : List (ℕ × Option ℚ × Option ℚ)) (pid : ℕ) (v : ℚ) (j : ℕ) :
    j ∈ (upsertQ rows pid v).map (fun r => r.1) ↔ j = pid ∨ j ∈ rows.map (fun r => r.1) := by
  induction rows with
  | nil => simp [upsertQ]
  | cons r rest ih =>
    obtain ⟨i, q, l⟩ := r
    by_cases h : i = pid
    · subst h
      simp [upsertQ]
    · simp only [upsertQ, if_neg h, List.map_cons, List.mem_cons, ih]
      tauto

theorem mem_upsertL (rows : List (ℕ × Option ℚ × Option ℚ)) (pid : ℕ) (v : ℚ) (j : ℕ) :
    j ∈ (upsertL rows pid v).map (fun r => r.1) ↔ j = pid ∨ j ∈ rows.map (fun r => r.1) := by
  induction rows with
  | nil => simp [upsertL]
  | cons r rest ih =>
    obtain ⟨i, q, l⟩ := r
    by_cases h : i = pid
    · subst h
      simp [upsertL]
    · simp only [upsertL, if_neg h, List.map_cons, List.mem_cons, ih]
      tauto

theorem nodup_upsertQ (rows : List (ℕ × Option ℚ × Option ℚ)) (pid : ℕ) (v : ℚ)
    (h : (rows.map (fun r => r.1)).Nodup) :
    ((upsertQ rows pid v).map (fun r => r.1)).Nodup := by
  induction rows with
  | nil => simp [upsertQ]
  | cons r rest ih =>
    obtain ⟨i, q, l⟩ := r
    rw [List.map_cons, List.nodup_cons] at h
    by_cases hi : i = pid
    · subst hi
      simpa [upsertQ, List.nodup_cons] using h
    · rw [upsertQ, if_neg hi, List.map_cons, List.nodup_cons]
      refine ⟨?_, ih h.2⟩
      rw [mem_upsertQ]
      push_neg
      exact ⟨hi, h.1⟩

theorem nodup_upsertL (rows : List (ℕ × Option ℚ × Option ℚ)) (pid : ℕ) (v : ℚ)
    (h : (rows.map (fun r => r.1)).Nodup) :
    ((upsertL rows pid v).map (fun r => r.1)).Nodup := by
  induction rows with
  | nil => simp [upsertL]
  | cons r rest ih =>
    obtain ⟨i, q, l⟩ := r
    rw [List.map_cons, List.nodup_cons] at h
    by_cases hi : i = pid
    · subst hi
      simpa [upsertL, List.nodup_cons] using h
    · rw [upsertL, if_neg hi, List.map_cons, List.nodup_cons]
      refine ⟨?_, ih h.2⟩
      rw [mem_upsertL]
      push_neg
      exact ⟨hi, h.1⟩

theorem filter_zip_nil (items : List ℕ) (gq : List (ℕ × ℚ)) (pid : ℕ)
    (h : gq.filter (fun x => x.1 == pid) = []) :
    ((gq.zip items).map (fun x => (x.1.1, x.2, x.1.2))).filter (fun w => w.1 == pid) = [] := by
  induction gq generalizing items with
  | nil => simp
  | cons x gq ih =>
    cases items with
    | nil => simp
    | cons b items =>
      rw [List.filter_cons] at h
      by_cases hx : (x.1 == pid) = true
      · rw [if_pos hx] at h
        exact absurd h (by simp)
      · rw [if_neg hx] at h
        simp only [List.zip_cons_cons, List.map_cons, List.filter_cons]
        rw [if_neg hx]
        exact ih items h

theorem flush_pid_cases (items : List ℕ) (gq : List (ℕ × ℚ)) (pid : ℕ) (sw : ℚ)
    (h : gq.filter (fun x => x.1 == pid) = [(pid, sw)]) :
    ((gq.drop items.length).filter (fun x => x.1 == pid) = [(pid, sw)]
      ∧ ((gq.zip items).map (fun x => (x.1.1, x.2, x.1.2))).filter (fun w => w.1 == pid) = [])
    ∨ ((gq.drop items.length).filter (fun x => x.1 == pid) = []
      ∧ ∃ b : ℕ, ((gq.zip items).map (fun x => (x.1.1, x.2, x.1.2))).filter
          (fun w => w.1 == pid) = [(pid, b, sw)]) := by
  induction gq generalizing items with
  | nil => simp at h
  | cons x gq ih =>
    cases items with
    | nil =>
      left
      constructor
      · simpa using h
      · simp
    | cons b items =>
      by_cases hx : (x.1 == pid) = true
      · rw [List.filter_cons, if_pos hx] at h
        have hx2 : x = (pid, sw) ∧ gq.filter (fun x => x.1 == pid) = [] := by
          constructor
          · exact (List.cons_eq_cons.mp h).1
          · exact (List.cons_eq_cons.mp h).2
        right
        constructor
        · rw [List.length_cons, List.drop_succ_cons]
          exact List.sublist_nil.mp
            (hx2.2 ▸ (List.drop_sublist items.length gq).filter (fun x => x.1 == pid))
        · refine ⟨b, ?_⟩
          simp only [List.zip_cons_cons, List.map_cons, List.filter_cons]
          rw [if_pos hx, hx2.1, filter_zip_nil items gq pid hx2.2]
      · rw [List.filter_cons, if_neg hx] at h
        rcases ih items h with ⟨h1, h2⟩ | ⟨h1, ⟨b2, h2⟩⟩
        · left
          constructor
          · rw [List.length_cons, List.drop_succ_cons]
            exact h1
          · simp only [List.zip_cons_cons, List.map_cons, List.filter_cons]
            rw [if_neg hx]
            exact h2
        · right
          constructor
          · rw [List.length_cons, List.drop_succ_cons]
            exact h1
          · refine ⟨b2, ?_⟩
            simp only [List.zip_cons_cons, List.map_cons, List.filter_cons]
            rw [if_neg hx]
            exact h2

theorem forall2_filter_pid {t : ℚ} (pid : ℕ) : ∀ {evs : List Sched} {ws : List (ℕ × ℕ × ℚ)},
    List.Forall₂ (GetEvFor t) evs ws →
    List.Forall₂ (GetEvFor t)
      (evs.filter (fun e => decide (evPid e.ev = some pid)))
      (ws.filter (fun w => w.1 == pid)) := by
  intro evs ws h
  induction h with
  | nil => exact List.Forall₂.nil
  | cons h1 h2 ih =>
    rename_i a w l1 l2
    rw [List.filter_cons, List.filter_cons]
    have hpred : (decide (evPid a.ev = some pid)) = (w.1 == pid) := by
      rw [h1.1]
      show decide (some w.1 = some pid) = (w.1 == pid)
      by_cases hw : w.1 = pid
      · simp [hw]
      · simp [hw]
    rw [hpred]
    by_cases hw : (w.1 == pid) = true
    · rw [if_pos hw, if_pos hw]
      exact List.Forall₂.cons h1 ih
    · rw [if_neg hw, if_neg hw]
      exact ih



/-! ### Phase transport and queue decomposition -/

theorem pidEvsQ_cons (e : Sched) (q : List Sched) (pid : ℕ) :
    pidEvsQ (e :: q) pid
      = (if evPid e.ev = some pid then ({e} : Multiset Sched) else 0) + pidEvsQ q pid := by
  unfold pidEvsQ
  rw [← Multiset.cons_coe, Multiset.filter_cons]

theorem pidEvsQ_insert (e : Sched) (q : List Sched) (pid : ℕ) :
    pidEvsQ (insertEv e q) pid
      = (if evPid e.ev = some pid then ({e} : Multiset Sched) else 0) + pidEvsQ q pid := by
  unfold pidEvsQ
  rw [insertEv_coe, Multiset.filter_cons]

theorem pidEvs_eq_q (s : ModelState) (pid : ℕ) : pidEvs s pid = pidEvsQ s.queue pid := rfl

theorem cons_eq_singleton {α : Type} {e e' : α} {X : Multiset α}
    (h : e ::ₘ X = {e'}) : e = e' ∧ X = 0 := by
  have hc := congrArg Multiset.card h
  rw [Multiset.card_cons, Multiset.card_singleton] at hc
  have hX : X = 0 := Multiset.card_eq_zero.mp (by omega)
  rw [hX] at h
  exact ⟨Multiset.singleton_inj.mp h, hX⟩

theorem phase_transport {s s' : ModelState} {pid : ℕ}
    (hl : logFor s' pid = logFor s pid) (hg : gqFor s' pid = gqFor s pid)
    (hr : rowOf s' pid = rowOf s pid) (hp : pidEvs s' pid = pidEvs s pid)
    (hc : s.patient_counter ≤ s'.patient_counter) :
    (phInit s pid → phInit s' pid) ∧ (phWait s pid → phWait s' pid)
    ∧ (phAcq s pid → phAcq s' pid) ∧ (phBed s pid → phBed s' pid)
    ∧ (phDone s pid → phDone s' pid) := by
  unfold phInit phWait phAcq phBed phDone rowInit
  rw [hl, hg, hr, hp]
  refine ⟨?_, ?_, ?_, ?_, ?_⟩ <;>
    exact fun h => ⟨h.1, le_trans h.2.1 hc, h.2.2⟩

theorem phNone_transport {s s' : ModelState} {pid : ℕ}
    (hl : logFor s' pid = logFor s pid) (hg : gqFor s' pid = gqFor s pid)
    (hr : rowOf s' pid = rowOf s pid) (hp : pidEvs s' pid = pidEvs s pid)
    (hc : s'.patient_counter = s.patient_counter) :
    phNone s pid → phNone s' pid := by
  unfold phNone rowInit
  rw [hl, hg, hr, hp, hc]
  exact id

theorem inv_step_gen (env : Streams) (s : ModelState) (t : ℚ) (pr sq : ℕ) (evg : Ev)
    (rest : List Sched) (hq : s.queue = ⟨t, pr, sq, evg⟩ :: rest)
    (hnp : evPid evg = none) (hs : ∀ j, PatientInv s j) (pid : ℕ) :
    PatientInv (execGen env { s with queue := rest, now := t }) pid := by
  have hpe_s : pidEvs s pid = pidEvsQ rest pid := by
    rw [pidEvs_eq_q, hq, pidEvsQ_cons, hnp]
    simp
  have hq' : (execGen env { s with queue := rest, now := t }).queue
      = insertEv ⟨t + env.arrSample s.arrIdx t, 1, s.nextSeq + 1, Ev.genTimeout⟩
          (insertEv ⟨t, 0, s.nextSeq, Ev.procInit (s.patient_counter + 1)⟩ rest) :=
    (execGen_spec env _).2.2.2.2.2.2.2
  have hpe : pidEvs (execGen env { s with queue := rest, now := t }) pid
      = (if s.patient_counter + 1 = pid then
          ({⟨t, 0, s.nextSeq, Ev.procInit (s.patient_counter + 1)⟩} : Multiset Sched) else 0)
        + pidEvsQ rest pid := by
    rw [pidEvs_eq_q, hq', pidEvsQ_insert, pidEvsQ_insert]
    simp [evPid]
  have hcnt : (execGen env { s with queue := rest, now := t }).patient_counter
      = s.patient_counter + 1 := rfl
  by_cases hj : s.patient_counter + 1 = pid
  · have hnone : phNone s pid := by
      rcases hs pid with h | h | h | h | h | h
      · exact h
      · exact absurd h.2.1 (by omega)
      · exact absurd h.2.1 (by omega)
      · exact absurd h.2.1 (by omega)
      · exact absurd h.2.1 (by omega)
      · exact absurd h.2.1 (by omega)
    obtain ⟨h0, hpe0, hgq0, hlog0, hrow0⟩ := hnone
    right; left
    refine ⟨by omega, by rw [hcnt]; omega, ?_, hgq0, hlog0, hrow0⟩
    refine ⟨⟨t, 0, s.nextSeq, Ev.procInit (s.patient_counter + 1)⟩, ?_, by rw [hj]⟩
    rw [hpe, if_pos hj, ← hpe_s, hpe0]
    simp
  · have hpe1 : pidEvs (execGen env { s with queue := rest, now := t }) pid = pidEvs s pid := by
      rw [hpe, if_neg hj, hpe_s]
      simp
    have hcle : s.patient_counter
        ≤ (execGen env { s with queue := rest, now := t }).patient_counter := by
      rw [hcnt]
      omega
    have hlg : logFor (execGen env { s with queue := rest, now := t }) pid = logFor s pid := rfl
    have hgg : gqFor (execGen env { s with queue := rest, now := t }) pid = gqFor s pid := rfl
    have hrg : rowOf (execGen env { s with queue := rest, now := t }) pid = rowOf s pid := rfl
    rcases hs pid with h | h | h | h | h | h
    · left
      obtain ⟨h0, h1, h2, h3, h4⟩ := h
      refine ⟨?_, by rw [hpe1]; exact h1, h2, h3, h4⟩
      rcases h0 with h0 | h0
      · exact Or.inl h0
      · right
        rw [hcnt]
        omega
    · exact Or.inr (Or.inl ((phase_transport hlg hgg hrg hpe1 hcle).1 h))
    · exact Or.inr (Or.inr (Or.inl ((phase_transport hlg hgg hrg hpe1 hcle).2.1 h)))
    · exact Or.inr (Or.inr (Or.inr (Or.inl ((phase_transport hlg hgg hrg hpe1 hcle).2.2.1 h))))
    · exact Or.inr (Or.inr (Or.inr (Or.inr (Or.inl
        ((phase_transport hlg hgg hrg hpe1 hcle).2.2.2.1 h)))))
    · exact Or.inr (Or.inr (Or.inr (Or.inr (Or.inr
        ((phase_transport hlg hgg hrg hpe1 hcle).2.2.2.2 h)))))

theorem filter_drop_nil {α : Type} (p : α → Bool) (l : List α) (n : ℕ)
    (h : l.filter p = []) : (l.drop n).filter p = [] :=
  List.sublist_nil.mp (h ▸ (List.drop_sublist n l).filter p)

theorem flush_effect_nil (items : List ℕ) (gq2 : List (ℕ × ℚ)) (pid : ℕ)
    {t : ℚ} {evs : List Sched}
    (hf : List.Forall₂ (GetEvFor t) evs
        ((gq2.zip items).map (fun x => (x.1.1, x.2, x.1.2))))
    (h : gq2.filter (fun x => x.1 == pid) = []) :
    (gq2.drop items.length).filter (fun x => x.1 == pid) = []
    ∧ evs.filter (fun e => decide (evPid e.ev = some pid)) = [] := by
  refine ⟨filter_drop_nil _ _ _ h, ?_⟩
  have h2 := forall2_filter_pid pid hf
  rw [filter_zip_nil items gq2 pid h] at h2
  exact List.forall₂_nil_right_iff.mp h2

theorem flush_effect_one (items : List ℕ) (gq2 : List (ℕ × ℚ)) (pid : ℕ) (sw : ℚ)
    {t : ℚ} {evs : List Sched}
    (hf : List.Forall₂ (GetEvFor t) evs
        ((gq2.zip items).map (fun x => (x.1.1, x.2, x.1.2))))
    (h : gq2.filter (fun x => x.1 == pid) = [(pid, sw)]) :
    ((gq2.drop items.length).filter (fun x => x.1 == pid) = [(pid, sw)]
      ∧ evs.filter (fun e => decide (evPid e.ev = some pid)) = [])
    ∨ ((gq2.drop items.length).filter (fun x => x.1 == pid) = []
      ∧ ∃ (e' : Sched) (b : ℕ),
          evs.filter (fun e => decide (evPid e.ev = some pid)) = [e']
          ∧ e'.ev = Ev.getSucceed pid b sw ∧ e'.time = t ∧ e'.prio = 1) := by
  rcases flush_pid_cases items gq2 pid sw h with ⟨h1, h2⟩ | ⟨h1, b, h2⟩
  · left
    refine ⟨h1, ?_⟩
    have h3 := forall2_filter_pid pid hf
    rw [h2] at h3
    exact List.forall₂_nil_right_iff.mp h3
  · right
    refine ⟨h1, ?_⟩
    have h3 := forall2_filter_pid pid hf
    rw [h2] at h3
    rw [List.forall₂_cons_right_iff] at h3
    obtain ⟨e', l', hge, hrest, hl⟩ := h3
    rw [List.forall₂_nil_right_iff.mp hrest] at hl
    exact ⟨e', b, hl, hge.1, hge.2.1, hge.2.2⟩

theorem pidEvs_flush (r : ModelState) (rest : List Sched) {evs : List Sched}
    (hq : ((r.queue : List Sched) : Multiset Sched)
        = (rest : Multiset Sched) + (evs : Multiset Sched)) (pid : ℕ) :
    pidEvs r pid = pidEvsQ rest pid
      + ((evs.filter (fun e => decide (evPid e.ev = some pid)) : List Sched) : Multiset Sched) := by
  show Multiset.filter _ ((r.queue : List Sched) : Multiset Sched) = _
  rw [hq, Multiset.filter_add]
  rfl

theorem inv_flush_other (s r : ModelState) (rest : List Sched) (gq2 : List (ℕ × ℚ))
    (items : List ℕ) (t : ℚ) {evs : List Sched}
    (hqm : ((r.queue : List Sched) : Multiset Sched)
        = (rest : Multiset Sched) + (evs : Multiset Sched))
    (hf : List.Forall₂ (GetEvFor t) evs
        ((gq2.zip items).map (fun x => (x.1.1, x.2, x.1.2))))
    (hgqr : r.getQueue = gq2.drop items.length)
    (pid : ℕ)
    (hpe_s : pidEvs s pid = pidEvsQ rest pid)
    (hgq2 : gq2.filter (fun x => x.1 == pid) = s.getQueue.filter (fun x => x.1 == pid))
    (hlr : logFor r pid = logFor s pid)
    (hrr : rowOf r pid = rowOf s pid)
    (hcnt : r.patient_counter = s.patient_counter)
    (hinv : PatientInv s pid) :
    PatientInv r pid := by
  have hpe_r := pidEvs_flush r rest hqm pid
  have hgqfr : gqFor r pid = (gq2.drop items.length).filter (fun x => x.1 == pid) := by
    simp only [gqFor]
    rw [hgqr]
  rcases hinv with h | h | h | h | h | h
  · obtain ⟨h0, h1, h2, h3, h4⟩ := h
    have hfq : gq2.filter (fun x => x.1 == pid) = [] := hgq2.trans h2
    have hnil := flush_effect_nil items gq2 pid hf hfq
    have hp : pidEvs r pid = pidEvs s pid := by
      rw [hpe_r, hnil.2, hpe_s]
      simp
    have hg : gqFor r pid = gqFor s pid := by
      rw [hgqfr, hnil.1]
      exact h2.symm
    exact Or.inl (phNone_transport hlr hg hrr hp hcnt ⟨h0, h1, h2, h3, h4⟩)
  · obtain ⟨h1, h2, he, hgq0, hlog0, hrow0⟩ := h
    have hfq : gq2.filter (fun x => x.1 == pid) = [] := hgq2.trans hgq0
    have hnil := flush_effect_nil items gq2 pid hf hfq
    have hp : pidEvs r pid = pidEvs s pid := by
      rw [hpe_r, hnil.2, hpe_s]
      simp
    have hg : gqFor r pid = gqFor s pid := by
      rw [hgqfr, hnil.1]
      exact hgq0.symm
    exact Or.inr (Or.inl ((phase_transport hlr hg hrr hp (le_of_eq hcnt.symm)).1
      ⟨h1, h2, he, hgq0, hlog0, hrow0⟩))
  · obtain ⟨h1le, h2le, hpe0, sw, pwa, pwb, hgqw, hlogw, hroww⟩ := h
    have hfq : gq2.filter (fun x => x.1 == pid) = [(pid, sw)] := hgq2.trans hgqw
    rcases flush_effect_one items gq2 pid sw hf hfq with
      ⟨hg1, hg2⟩ | ⟨hg1, e2, b, he2, hev, htime, hprio⟩
    · right; right; left
      refine ⟨h1le, by rw [hcnt]; exact h2le, ?_, sw, pwa, pwb, ?_, ?_, ?_⟩
      · rw [hpe_r, hg2, ← hpe_s, hpe0]
        simp
      · rw [hgqfr, hg1]
      · rw [hlr]
        exact hlogw
      · unfold rowInit
        rw [hrr]
        exact hroww
    · right; right; right; left
      refine ⟨h1le, by rw [hcnt]; exact h2le, e2, b, sw, pwa, pwb, ?_, hev, ?_, ?_, ?_⟩
      · rw [hpe_r, he2, ← hpe_s, hpe0]
        simp
      · rw [hgqfr, hg1]
      · rw [hlr]
        exact hlogw
      · unfold rowInit
        rw [hrr]
        exact hroww
  · obtain ⟨h1, h2, e2, bed, sw, pwa, pwb, hpe0, hev, hgq0, hlog0, hrow0⟩ := h
    have hfq : gq2.filter (fun x => x.1 == pid) = [] := hgq2.trans hgq0
    have hnil := flush_effect_nil items gq2 pid hf hfq
    have hp : pidEvs r pid = pidEvs s pid := by
      rw [hpe_r, hnil.2, hpe_s]
      simp
    have hg : gqFor r pid = gqFor s pid := by
      rw [hgqfr, hnil.1]
      exact hgq0.symm
    exact Or.inr (Or.inr (Or.inr (Or.inl ((phase_transport hlr hg hrr hp
      (le_of_eq hcnt.symm)).2.2.1 ⟨h1, h2, e2, bed, sw, pwa, pwb, hpe0, hev, hgq0, hlog0, hrow0⟩))))
  · obtain ⟨h1, h2, e2, bed, t0, t1, l, pwa, pwb, pwc, ovl, hpe0, hev, htv, hgq0, hlog0, hovl, hrow⟩ := h
    have hfq : gq2.filter (fun x => x.1 == pid) = [] := hgq2.trans hgq0
    have hnil := flush_effect_nil items gq2 pid hf hfq
    have hp : pidEvs r pid = pidEvs s pid := by
      rw [hpe_r, hnil.2, hpe_s]
      simp
    have hg : gqFor r pid = gqFor s pid := by
      rw [hgqfr, hnil.1]
      exact hgq0.symm
    exact Or.inr (Or.inr (Or.inr (Or.inr (Or.inl ((phase_transport hlr hg hrr hp
      (le_of_eq hcnt.symm)).2.2.2.1
      ⟨h1, h2, e2, bed, t0, t1, l, pwa, pwb, pwc, ovl, hpe0, hev, htv, hgq0, hlog0, hovl, hrow⟩)))))
  · obtain ⟨h1, h2, hpe0, hgq0, hrest⟩ := h
    have hfq : gq2.filter (fun x => x.1 == pid) = [] := hgq2.trans hgq0
    have hnil := flush_effect_nil items gq2 pid hf hfq
    have hp : pidEvs r pid = pidEvs s pid := by
      rw [hpe_r, hnil.2, hpe_s]
      simp
    have hg : gqFor r pid = gqFor s pid := by
      rw [hgqfr, hnil.1]
      exact hgq0.symm
    exact Or.inr (Or.inr (Or.inr (Or.inr (Or.inr ((phase_transport hlr hg hrr hp
      (le_of_eq hcnt.symm)).2.2.2.2 ⟨h1, h2, hpe0, hgq0, hrest⟩)))))

theorem inv_step_put (s : ModelState) (t : ℚ) (pr sq : ℕ) (rest : List Sched)
    (hq : s.queue = ⟨t, pr, sq, Ev.putEvent⟩ :: rest)
    (hs : ∀ j, PatientInv s j) (pid : ℕ) :
    PatientInv (triggerGet { s with queue := rest, now := t }) pid := by
  obtain ⟨hcore, hstore, hgq, evs, hqm, hf⟩ :=
    triggerGet_spec { s with queue := rest, now := t }
  have hpe_s : pidEvs s pid = pidEvsQ rest pid := by
    rw [pidEvs_eq_q, hq, pidEvsQ_cons]
    simp [evPid]
  have hlg : logFor (triggerGet { s with queue := rest, now := t }) pid = logFor s pid := by
    simp only [logFor]
    rw [triggerGet_log]
  have hrg : rowOf (triggerGet { s with queue := rest, now := t }) pid = rowOf s pid := by
    simp only [rowOf]
    rw [triggerGet_results]
  exact inv_flush_other s _ rest s.getQueue s.storeItems t hqm hf hgq pid hpe_s rfl
    hlg hrg (triggerGet_counter _) (hs pid)

theorem inv_step_proc (cfg : Config) (env : Streams) (s : ModelState) (t : ℚ)
    (pr sq pid0 : ℕ) (rest : List Sched)
    (hq : s.queue = ⟨t, pr, sq, Ev.procInit pid0⟩ :: rest)
    (hs : ∀ j, PatientInv s j) (pid : ℕ) :
    PatientInv (execProcInit cfg env { s with queue := rest, now := t } pid0) pid := by
  obtain ⟨pw, hlog, hres, hcnt0, hpat, hnow, hstore, hgq, evs, hqm, hf⟩ :=
    execProcInit_spec cfg env { s with queue := rest, now := t } pid0
  have hlr := logFor_append s
    (execProcInit cfg env { s with queue := rest, now := t } pid0) pid
    [entA pid0 pw t, entW pid0 pw t] hlog
  have hrr : rowOf (execProcInit cfg env { s with queue := rest, now := t } pid0) pid
      = rowOf s pid := by
    simp only [rowOf]
    rw [hres]
  have hcnt : (execProcInit cfg env { s with queue := rest, now := t } pid0).patient_counter
      = s.patient_counter := hcnt0
  by_cases hj : pid = pid0
  · subst hj
    have hsplit : pidEvs s pid = ⟨t, pr, sq, Ev.procInit pid⟩ ::ₘ pidEvsQ rest pid := by
      rw [pidEvs_eq_q, hq, pidEvsQ_cons]
      simp [evPid, Multiset.singleton_add]
    have hlogAW : [entA pid pw t, entW pid pw t].filter (fun e => e.patient == pid)
        = [entA pid pw t, entW pid pw t] := by
      simp [entA, entW]
    rcases hs pid with h | h | h | h | h | h
    · rw [h.2.1] at hsplit
      exact absurd hsplit.symm (Multiset.cons_ne_zero)
    · obtain ⟨h1le, h2le, ⟨e2, hpe0, hev⟩, hgq0, hlog0, hrow0⟩ := h
      rw [hpe0] at hsplit
      obtain ⟨hEe, hX0⟩ := cons_eq_singleton hsplit.symm
      have hfq : (s.getQueue ++ [(pid, t)]).filter (fun x => x.1 == pid) = [(pid, t)] := by
        rw [List.filter_append]
        rw [show s.getQueue.filter (fun x => x.1 == pid) = [] from hgq0]
        simp
      rcases flush_effect_one s.storeItems (s.getQueue ++ [(pid, t)]) pid t hf hfq with
        ⟨hg1, hg2⟩ | ⟨hg1, e2, b, he2, hev2, htime, hprio⟩
      · right; right; left
        refine ⟨h1le, by rw [hcnt]; exact h2le, ?_, t, pw, pw, ?_, ?_, ?_⟩
        · rw [pidEvs_flush _ rest hqm pid, hg2, hX0]
          simp
        · simp only [gqFor]
          rw [hgq, hg1]
        · rw [hlr, hlog0, hlogAW]
          simp
        · unfold rowInit
          rw [hrr]
          exact hrow0
      · right; right; right; left
        refine ⟨h1le, by rw [hcnt]; exact h2le, e2, b, t, pw, pw, ?_, hev2, ?_, ?_, ?_⟩
        · rw [pidEvs_flush _ rest hqm pid, he2, hX0]
          simp
        · simp only [gqFor]
          rw [hgq, hg1]
        · rw [hlr, hlog0, hlogAW]
          simp
        · unfold rowInit
          rw [hrr]
          exact hrow0
    · rw [h.2.2.1] at hsplit
      exact absurd hsplit.symm (Multiset.cons_ne_zero)
    · obtain ⟨h1le, h2le, e2, bed, sw, pwa, pwb, hpe0, hev, hrest⟩ := h
      rw [hpe0] at hsplit
      obtain ⟨hEe, hX0⟩ := cons_eq_singleton hsplit.symm
      rw [← hEe] at hev
      exact absurd hev (by simp)
    · obtain ⟨h1le, h2le, e2, bed, t0, t1, l, pwa, pwb, pwc, ovl, hpe0, hev, hrest⟩ := h
      rw [hpe0] at hsplit
      obtain ⟨hEe, hX0⟩ := cons_eq_singleton hsplit.symm
      rw [← hEe] at hev
      exact absurd hev (by simp)
    · rw [h.2.2.1] at hsplit
      exact absurd hsplit.symm (Multiset.cons_ne_zero)
  · have hne' : (pid0 == pid) = false := beq_eq_false_iff_ne.mpr (fun hh => hj hh.symm)
    have hpe_s : pidEvs s pid = pidEvsQ rest pid := by
      rw [pidEvs_eq_q, hq, pidEvsQ_cons]
      have : ¬ (evPid (Ev.procInit pid0) = some pid) := by
        simp [evPid]
        exact fun hh => hj hh.symm
      rw [if_neg this]
      simp
    have hlr2 : logFor (execProcInit cfg env { s with queue := rest, now := t } pid0) pid
        = logFor s pid := by
      rw [hlr]
      have : [entA pid0 pw t, entW pid0 pw t].filter (fun e => e.patient == pid) = [] := by
        simp [entA, entW, hne']
      rw [this]
      simp
    have hgq2 : (s.getQueue ++ [(pid0, t)]).filter (fun x => x.1 == pid)
        = s.getQueue.filter (fun x => x.1 == pid) := by
      rw [List.filter_append]
      simp [hne']
    exact inv_flush_other s _ rest (s.getQueue ++ [(pid0, t)]) s.storeItems t hqm hf hgq
      pid hpe_s hgq2 hlr2 hrr hcnt (hs pid)

theorem inv_step_get (env : Streams) (s : ModelState) (t : ℚ) (pr sq pid0 bed : ℕ)
    (sw : ℚ) (rest : List Sched)
    (hq : s.queue = ⟨t, pr, sq, Ev.getSucceed pid0 bed sw⟩ :: rest)
    (hs : ∀ j, PatientInv s j) (pid : ℕ) :
    PatientInv (execGetSucceed env { s with queue := rest, now := t } pid0 bed sw) pid := by
  have hoc : (overnightRule env pid0 (pathwayOf { s with queue := rest, now := t } pid0)
        bed t s.bed_los s.randIdx).logged.toList = []
      ∨ ∃ tov : ℚ, (overnightRule env pid0 (pathwayOf { s with queue := rest, now := t } pid0)
        bed t s.bed_los s.randIdx).logged.toList
          = [entOV pid0 (pathwayOf { s with queue := rest, now := t } pid0) tov bed] := by
    unfold overnightRule
    split
    · right
      exact ⟨t + s.bed_los, rfl⟩
    · left
      rfl
  have hlogeq : (execGetSucceed env { s with queue := rest, now := t } pid0 bed sw).event_log
      = s.event_log ++ ([entB pid0 (pathwayOf { s with queue := rest, now := t } pid0) t bed]
          ++ (overnightRule env pid0 (pathwayOf { s with queue := rest, now := t } pid0)
               bed t s.bed_los s.randIdx).logged.toList) := by
    rw [(execGetSucceed_spec env { s with queue := rest, now := t } pid0 bed sw).1,
      List.append_assoc]
  have hlr := logFor_append s
    (execGetSucceed env { s with queue := rest, now := t } pid0 bed sw) pid _ hlogeq
  have hq' : (execGetSucceed env { s with queue := rest, now := t } pid0 bed sw).queue
      = insertEv ⟨t + (overnightRule env pid0 (pathwayOf { s with queue := rest, now := t } pid0)
            bed t s.bed_los s.randIdx).bed_los, 1, s.nextSeq, Ev.losTimeout pid0 bed⟩ rest :=
    (execGetSucceed_spec env { s with queue := rest, now := t } pid0 bed sw).2.2.2.2.2.2.2.2
  by_cases hj : pid = pid0
  · subst hj
    have hsplit : pidEvs s pid = ⟨t, pr, sq, Ev.getSucceed pid bed sw⟩ ::ₘ pidEvsQ rest pid := by
      rw [pidEvs_eq_q, hq, pidEvsQ_cons]
      simp [evPid, Multiset.singleton_add]
    rcases hs pid with h | h | h | h | h | h
    · rw [h.2.1] at hsplit
      exact absurd hsplit.symm (Multiset.cons_ne_zero)
    · obtain ⟨h1le, h2le, ⟨e2, hpe0, hev⟩, hrest⟩ := h
      rw [hpe0] at hsplit
      obtain ⟨hEe, hX0⟩ := cons_eq_singleton hsplit.symm
      rw [← hEe] at hev
      exact absurd hev (by simp)
    · rw [h.2.2.1] at hsplit
      exact absurd hsplit.symm (Multiset.cons_ne_zero)
    · obtain ⟨h1le, h2le, e2, bed2, sw2, pwa, pwb, hpe0, hev, hgq0, hlog0, hrow0⟩ := h
      rw [hpe0] at hsplit
      obtain ⟨hEe, hX0⟩ := cons_eq_singleton hsplit.symm
      rw [← hEe] at hev
      have hbs : bed = bed2 ∧ sw = sw2 := by
        have h5 := hev
        simp only [Sched.ev] at h5
        simpa using h5
      obtain ⟨hbed, hsw⟩ := hbs
      subst hbed
      subst hsw
      have hpeR : pidEvs (execGetSucceed env { s with queue := rest, now := t } pid bed sw) pid
          = {(⟨t + (overnightRule env pid
                (pathwayOf { s with queue := rest, now := t } pid) bed t s.bed_los
                s.randIdx).bed_los, 1, s.nextSeq, Ev.losTimeout pid bed⟩ : Sched)} := by
        rw [pidEvs_eq_q, hq', pidEvsQ_insert]
        rw [show pidEvsQ rest pid = 0 from hX0]
        simp [evPid]
      have hrowR : rowOf (execGetSucceed env { s with queue := rest, now := t } pid bed sw) pid
          = some (some (t - sw), some (overnightRule env pid
              (pathwayOf { s with queue := rest, now := t } pid) bed t s.bed_los
              s.randIdx).bed_los) := by
        have hres : (execGetSucceed env { s with queue := rest, now := t } pid bed sw).results
            = upsertL (upsertQ s.results pid (t - sw)) pid
                (overnightRule env pid (pathwayOf { s with queue := rest, now := t } pid)
                  bed t s.bed_los s.randIdx).bed_los := rfl
        simp only [rowOf]
        rw [hres, find_upsertQL]
        rfl
      right; right; right; right; left
      rcases hoc with hoc | ⟨tov, hoc⟩
      · refine ⟨h1le, h2le,
          ⟨t + (overnightRule env pid
              (pathwayOf { s with queue := rest, now := t } pid) bed t s.bed_los
              s.randIdx).bed_los, 1, s.nextSeq, Ev.losTimeout pid bed⟩, bed, sw, t,
          (overnightRule env pid (pathwayOf { s with queue := rest, now := t } pid)
            bed t s.bed_los s.randIdx).bed_los,
          pwa, pwb, pathwayOf { s with queue := rest, now := t } pid, [],
          hpeR, rfl, rfl, hgq0, ?_, Or.inl rfl, hrowR⟩
        rw [hlr, hlog0, hoc]
        simp [entA, entW, entB]
      · refine ⟨h1le, h2le,
          ⟨t + (overnightRule env pid
              (pathwayOf { s with queue := rest, now := t } pid) bed t s.bed_los
              s.randIdx).bed_los, 1, s.nextSeq, Ev.losTimeout pid bed⟩, bed, sw, t,
          (overnightRule env pid (pathwayOf { s with queue := rest, now := t } pid)
            bed t s.bed_los s.randIdx).bed_los,
          pwa, pwb, pathwayOf { s with queue := rest, now := t } pid,
          [entOV pid (pathwayOf { s with queue := rest, now := t } pid) tov bed],
          hpeR, rfl, rfl, hgq0, ?_,
          Or.inr ⟨tov, pathwayOf { s with queue := rest, now := t } pid, rfl⟩, hrowR⟩
        rw [hlr, hlog0, hoc]
        simp [entA, entW, entB, entOV]
    · obtain ⟨h1le, h2le, e2, bed2, t0, t1, l, pwa, pwb, pwc, ovl, hpe0, hev, hrest⟩ := h
      rw [hpe0] at hsplit
      obtain ⟨hEe, hX0⟩ := cons_eq_singleton hsplit.symm
      rw [← hEe] at hev
      exact absurd hev (by simp)
    · rw [h.2.2.1] at hsplit
      exact absurd hsplit.symm (Multiset.cons_ne_zero)
  · have hne' : (pid0 == pid) = false := beq_eq_false_iff_ne.mpr (fun hh => hj hh.symm)
    have hpe_s : pidEvs s pid = pidEvsQ rest pid := by
      rw [pidEvs_eq_q, hq, pidEvsQ_cons]
      have : ¬ (evPid (Ev.getSucceed pid0 bed sw) = some pid) := by
        simp [evPid]
        exact fun hh => hj hh.symm
      rw [if_neg this]
      simp
    have hpe1 : pidEvs (execGetSucceed env { s with queue := rest, now := t } pid0 bed sw) pid
        = pidEvs s pid := by
      rw [pidEvs_eq_q, hq', pidEvsQ_insert, hpe_s]
      have : ¬ (evPid (Ev.losTimeout pid0 bed) = some pid) := by
        simp [evPid]
        exact fun hh => hj hh.symm
      rw [if_neg this]
      simp
    have hlr2 : logFor (execGetSucceed env { s with queue := rest, now := t } pid0 bed sw) pid
        = logFor s pid := by
      rw [hlr]
      rcases hoc with hoc | ⟨tov, hoc⟩
      · rw [hoc]
        simp [entB, hne']
      · rw [hoc]
        simp [entB, entOV, hne']
    have hrr : rowOf (execGetSucceed env { s with queue := rest, now := t } pid0 bed sw) pid
        = rowOf s pid := by
      have hres : (execGetSucceed env { s with queue := rest, now := t } pid0 bed sw).results
          = upsertL (upsertQ s.results pid0 (t - sw)) pid0
              (overnightRule env pid0 (pathwayOf { s with queue := rest, now := t } pid0)
                bed t s.bed_los s.randIdx).bed_los := rfl
      simp only [rowOf]
      rw [hres, find_upsertL_ne _ _ _ _ hj, find_upsertQ_ne _ _ _ _ hj]
    have hgg : gqFor (execGetSucceed env { s with queue := rest, now := t } pid0 bed sw) pid
        = gqFor s pid := rfl
    have hcnt : (execGetSucceed env
        { s with queue := rest, now := t } pid0 bed sw).patient_counter
        = s.patient_counter := rfl
    rcases hs pid with h | h | h | h | h | h
    · exact Or.inl (phNone_transport hlr2 hgg hrr hpe1 hcnt h)
    · exact Or.inr (Or.inl ((phase_transport hlr2 hgg hrr hpe1 (le_of_eq hcnt.symm)).1 h))
    · exact Or.inr (Or.inr (Or.inl
        ((phase_transport hlr2 hgg hrr hpe1 (le_of_eq hcnt.symm)).2.1 h)))
    · exact Or.inr (Or.inr (Or.inr (Or.inl
        ((phase_transport hlr2 hgg hrr hpe1 (le_of_eq hcnt.symm)).2.2.1 h))))
    · exact Or.inr (Or.inr (Or.inr (Or.inr (Or.inl
        ((phase_transport hlr2 hgg hrr hpe1 (le_of_eq hcnt.symm)).2.2.2.1 h)))))
    · exact Or.inr (Or.inr (Or.inr (Or.inr (Or.inr
        ((phase_transport hlr2 hgg hrr hpe1 (le_of_eq hcnt.symm)).2.2.2.2 h)))))

theorem inv_step_los (s : ModelState) (t : ℚ) (pr sq pid0 bed : ℕ) (rest : List Sched)
    (hq : s.queue = ⟨t, pr, sq, Ev.losTimeout pid0 bed⟩ :: rest)
    (hs : ∀ j, PatientInv s j) (pid : ℕ) :
    PatientInv (execLos { s with queue := rest, now := t } pid0 bed) pid := by
  have hlogeq : (execLos { s with queue := rest, now := t } pid0 bed).event_log
      = s.event_log ++ [entC pid0 (pathwayOf { s with queue := rest, now := t } pid0) t bed,
          entD pid0 (pathwayOf { s with queue := rest, now := t } pid0) t] :=
    (execLos_spec { s with queue := rest, now := t } pid0 bed).1
  have hlr := logFor_append s (execLos { s with queue := rest, now := t } pid0 bed) pid _ hlogeq
  have hq' : (execLos { s with queue := rest, now := t } pid0 bed).queue
      = insertEv ⟨t, 1, s.nextSeq, Ev.putEvent⟩ rest :=
    (execLos_spec { s with queue := rest, now := t } pid0 bed).2.2.2.2.2.2.2
  have hgg : gqFor (execLos { s with queue := rest, now := t } pid0 bed) pid
      = gqFor s pid := rfl
  have hrr : rowOf (execLos { s with queue := rest, now := t } pid0 bed) pid
      = rowOf s pid := rfl
  have hcnt : (execLos { s with queue := rest, now := t } pid0 bed).patient_counter
      = s.patient_counter := rfl
  by_cases hj : pid = pid0
  · subst hj
    have hsplit : pidEvs s pid = ⟨t, pr, sq, Ev.losTimeout pid bed⟩ ::ₘ pidEvsQ rest pid := by
      rw [pidEvs_eq_q, hq, pidEvsQ_cons]
      simp [evPid, Multiset.singleton_add]
    rcases hs pid with h | h | h | h | h | h
    · rw [h.2.1] at hsplit
      exact absurd hsplit.symm (Multiset.cons_ne_zero)
    · obtain ⟨h1le, h2le, ⟨e2, hpe0, hev⟩, hrest⟩ := h
      rw [hpe0] at hsplit
      obtain ⟨hEe, hX0⟩ := cons_eq_singleton hsplit.symm
      rw [← hEe] at hev
      exact absurd hev (by simp)
    · rw [h.2.2.1] at hsplit
      exact absurd hsplit.symm (Multiset.cons_ne_zero)
    · obtain ⟨h1le, h2le, e2, bed2, sw2, pwa, pwb, hpe0, hev, hrest⟩ := h
      rw [hpe0] at hsplit
      obtain ⟨hEe, hX0⟩ := cons_eq_singleton hsplit.symm
      rw [← hEe] at hev
      exact absurd hev (by simp)
    · obtain ⟨h1le, h2le, e2, bed2, t0, t1, l, pwa, pwb, pwc, ovl, hpe0, hev, htv, hgq0,
        hlog0, hovl, hrow0⟩ := h
      rw [hpe0] at hsplit
      obtain ⟨hEe, hX0⟩ := cons_eq_singleton hsplit.symm
      rw [← hEe] at hev
      have hbed : bed = bed2 := by
        have h5 := hev
        simp only [Sched.ev] at h5
        simpa using h5
      subst hbed
      have htt : t = t1 + l := by
        rw [← hEe] at htv
        exact htv
      have hpeR : pidEvs (execLos { s with queue := rest, now := t } pid bed) pid = 0 := by
        rw [pidEvs_eq_q, hq', pidEvsQ_insert]
        rw [show pidEvsQ rest pid = 0 from hX0]
        simp [evPid]
      right; right; right; right; right
      refine ⟨h1le, h2le, hpeR, hgq0, bed, t0, t1, l, pwa, pwb, pwc,
        pathwayOf { s with queue := rest, now := t } pid,
        pathwayOf { s with queue := rest, now := t } pid, ovl, ?_, hovl, hrow0⟩
      rw [hlr, hlog0]
      have hfCD : [entC pid (pathwayOf { s with queue := rest, now := t } pid) t bed,
          entD pid (pathwayOf { s with queue := rest, now := t } pid) t].filter
            (fun e => e.patient == pid)
          = [entC pid (pathwayOf { s with queue := rest, now := t } pid) t bed,
             entD pid (pathwayOf { s with queue := rest, now := t } pid) t] := by
        simp [entC, entD]
      rw [hfCD, htt]
    · rw [h.2.2.1] at hsplit
      exact absurd hsplit.symm (Multiset.cons_ne_zero)
  · have hne' : (pid0 == pid) = false := beq_eq_false_iff_ne.mpr (fun hh => hj hh.symm)
    have hpe_s : pidEvs s pid = pidEvsQ rest pid := by
      rw [pidEvs_eq_q, hq, pidEvsQ_cons]
      have h6 : ¬ (evPid (Ev.losTimeout pid0 bed) = some pid) := by
        simp [evPid]
        exact fun hh => hj hh.symm
      rw [if_neg h6]
      simp
    have hpe1 : pidEvs (execLos { s with queue := rest, now := t } pid0 bed) pid
        = pidEvs s pid := by
      rw [pidEvs_eq_q, hq', pidEvsQ_insert, hpe_s]
      simp [evPid]
    have hlr2 : logFor (execLos { s with queue := rest, now := t } pid0 bed) pid
        = logFor s pid := by
      rw [hlr]
      have h7 : [entC pid0 (pathwayOf { s with queue := rest, now := t } pid0) t bed,
          entD pid0 (pathwayOf { s with queue := rest, now := t } pid0) t].filter
            (fun e => e.patient == pid) = [] := by
        simp [entC, entD, hne']
      rw [h7]
      simp
    rcases hs pid with h | h | h | h | h | h
    · exact Or.inl (phNone_transport hlr2 hgg hrr hpe1 hcnt h)
    · exact Or.inr (Or.inl ((phase_transport hlr2 hgg hrr hpe1 (le_of_eq hcnt.symm)).1 h))
    · exact Or.inr (Or.inr (Or.inl
        ((phase_transport hlr2 hgg hrr hpe1 (le_of_eq hcnt.symm)).2.1 h)))
    · exact Or.inr (Or.inr (Or.inr (Or.inl
        ((phase_transport hlr2 hgg hrr hpe1 (le_of_eq hcnt.symm)).2.2.1 h))))
    · exact Or.inr (Or.inr (Or.inr (Or.inr (Or.inl
        ((phase_transport hlr2 hgg hrr hpe1 (le_of_eq hcnt.symm)).2.2.2.1 h)))))
    · exact Or.inr (Or.inr (Or.inr (Or.inr (Or.inr
        ((phase_transport hlr2 hgg hrr hpe1 (le_of_eq hcnt.symm)).2.2.2.2 h)))))

theorem patientInv_all (cfg : Config) (env : Streams) : ∀ (k : ℕ) (pid : ℕ),
    PatientInv (simSteps cfg env k) pid := by
  intro k
  induction k with
  | zero =>
    intro pid
    left
    refine ⟨?_, rfl, rfl, rfl, ?_⟩
    · rcases Nat.eq_zero_or_pos pid with h | h
      · exact Or.inl h
      · exact Or.inr h
    · unfold rowInit rowOf
      by_cases h : pid = 1
      · subst h
        rfl
      · have h2 : (1 == pid) = false := beq_eq_false_iff_ne.mpr (fun hh => h hh.symm)
        show (((initState cfg).results.find? (fun r => r.1 == pid)).map (fun r => r.2))
            = if pid = 1 then some (some 0, some 0) else none
        rw [if_neg h]
        show (([(1, some 0, some 0)].find? (fun r => r.1 == pid)).map (fun r => r.2)) = none
        rw [List.find?]
        simp [h2]
  | succ k ih =>
    intro pid
    rw [simSteps]
    rcases stepSim_cases cfg env (simSteps cfg env k) with h | ⟨e, rest, hq, h⟩
    · rw [h]
      exact ih pid
    · rw [h]
      rcases e with ⟨t, pr, sq, ev⟩
      cases ev with
      | genInit => exact inv_step_gen env _ t pr sq _ rest hq rfl ih pid
      | genTimeout => exact inv_step_gen env _ t pr sq _ rest hq rfl ih pid
      | procInit pid0 => exact inv_step_proc cfg env _ t pr sq pid0 rest hq ih pid
      | getSucceed pid0 bed sw => exact inv_step_get env _ t pr sq pid0 bed sw rest hq ih pid
      | putEvent => exact inv_step_put _ t pr sq rest hq ih pid
      | losTimeout pid0 bed => exact inv_step_los _ t pr sq pid0 bed rest hq ih pid

/-- C3 counterexample: with one bed, a single arrival at time 0 and a
30-hour stay against the 10-hour run bound, the run creates patient 1 but
`env.run(until=...)` abandons its pending stay timeout: the final log
holds only `arrival`, `bed_wait_begins` and `bed_occupy_begins` for
patient 1 — no `bed_occupy_complete` and no `depart` entry, refuting
"exactly one entry of each event name for every patient created". -/
theorem claimC3_counterexample :
    (simSteps cfgTrunc envTrunc 10).patient_counter = 1
    ∧ logNames (simSteps cfgTrunc envTrunc 10) 1
        = ["arrival", "bed_wait_begins", "bed_occupy_begins"]
    ∧ "depart" ∉ logNames (simSteps cfgTrunc envTrunc 10) 1 := by
  have h2 : logNames (simSteps cfgTrunc envTrunc 10) 1
      = ["arrival", "bed_wait_begins", "bed_occupy_begins"] := by
    with_unfolding_all rfl
  refine ⟨by with_unfolding_all rfl, h2, ?_⟩
  rw [h2]
  decide

/-- C3 (amended): every patient's sub-log is a prefix of the fixed
pathway order — `[]`, `[arrival, bed_wait_begins]`,
`[arrival, bed_wait_begins, bed_occupy_begins]`, optionally followed by
`overnight_stay`, optionally completed by
`bed_occupy_complete, depart`.  Hence each event name occurs at most once
per patient and always in the fixed insertion order, with `overnight_stay`
present exactly when the overnight rule fired; but a patient whose stay
is still pending at the run bound is abandoned with a proper prefix, so
"exactly one of each" holds only for patients whose pathway completed. -/
theorem claimC3 (cfg : Config) (env : Streams) (k pid : ℕ) :
    logNames (simSteps cfg env k) pid = []
    ∨ logNames (simSteps cfg env k) pid = ["arrival", "bed_wait_begins"]
    ∨ logNames (simSteps cfg env k) pid
        = ["arrival", "bed_wait_begins", "bed_occupy_begins"]
    ∨ logNames (simSteps cfg env k) pid
        = ["arrival", "bed_wait_begins", "bed_occupy_begins", "overnight_stay"]
    ∨ logNames (simSteps cfg env k) pid
        = ["arrival", "bed_wait_begins", "bed_occupy_begins",
           "bed_occupy_complete", "depart"]
    ∨ logNames (simSteps cfg env k) pid
        = ["arrival", "bed_wait_begins", "bed_occupy_begins", "overnight_stay",
           "bed_occupy_complete", "depart"] := by
  rcases patientInv_all cfg env k pid with hp | hp | hp | hp | hp | hp
  · exact Or.inl (by unfold logNames; rw [hp.2.2.2.1]; rfl)
  · exact Or.inl (by unfold logNames; rw [hp.2.2.2.2.1]; rfl)
  · obtain ⟨-, -, -, sw, pwa, pwb, -, hlg, -⟩ := hp
    exact Or.inr (Or.inl (by unfold logNames; rw [hlg]; simp [entA, entW]))
  · obtain ⟨-, -, e, bed, sw, pwa, pwb, -, -, -, hlg, -⟩ := hp
    exact Or.inr (Or.inl (by unfold logNames; rw [hlg]; simp [entA, entW]))
  · obtain ⟨-, -, e, bed, t0, t1, l, pwa, pwb, pwc, ovl, -, -, -, -, hlg, hovl, -⟩ := hp
    rcases hovl with h0 | ⟨tov, pwd, h0⟩
    · subst h0
      exact Or.inr (Or.inr (Or.inl
        (by unfold logNames; rw [hlg]; simp [entA, entW, entB])))
    · subst h0
      exact Or.inr (Or.inr (Or.inr (Or.inl
        (by unfold logNames; rw [hlg]; simp [entA, entW, entB, entOV]))))
  · obtain ⟨-, -, -, -, bed, t0, t1, l, pwa, pwb, pwc, pwe, pwf, ovl, hlg, hovl, -⟩ := hp
    rcases hovl with h0 | ⟨tov, pwd, h0⟩
    · subst h0
      exact Or.inr (Or.inr (Or.inr (Or.inr (Or.inl
        (by unfold logNames; rw [hlg]; simp [entA, entW, entB, entC, entD])))))
    · subst h0
      exact Or.inr (Or.inr (Or.inr (Or.inr (Or.inr
        (by unfold logNames; rw [hlg]; simp [entA, entW, entB, entOV, entC, entD])))))

/-- C4 (confirmed): for every patient whose `depart` event was logged,
its sub-log holds exactly one `arrival` entry, at some time `tA`, and
exactly one `depart` entry, at some time `tD`; the results row records a
Queue Time Bed `q` and a Length of Stay `l`; and `tD - tA = q + l`
exactly (rational arithmetic, hence within any floating tolerance). -/
theorem claimC4 (cfg : Config) (env : Streams) (k pid : ℕ)
    (h : "depart" ∈ logNames (simSteps cfg env k) pid) :
    ∃ (tA tD q l : ℚ),
      ((logFor (simSteps cfg env k) pid).filter
          (fun e => e.event == "arrival")).map (fun e => e.time) = [tA]
      ∧ ((logFor (simSteps cfg env k) pid).filter
          (fun e => e.event == "depart")).map (fun e => e.time) = [tD]
      ∧ rowOf (simSteps cfg env k) pid = some (some q, some l)
      ∧ tD - tA = q + l := by
  rcases patientInv_all cfg env k pid with hp | hp | hp | hp | hp | hp
  · exfalso
    unfold logNames at h
    rw [hp.2.2.2.1] at h
    simp at h
  · exfalso
    unfold logNames at h
    rw [hp.2.2.2.2.1] at h
    simp at h
  · exfalso
    obtain ⟨-, -, -, sw, pwa, pwb, -, hlg, -⟩ := hp
    unfold logNames at h
    rw [hlg] at h
    simp [entA, entW] at h
  · exfalso
    obtain ⟨-, -, e, bed, sw, pwa, pwb, -, -, -, hlg, -⟩ := hp
    unfold logNames at h
    rw [hlg] at h
    simp [entA, entW] at h
  · exfalso
    obtain ⟨-, -, e, bed, t0, t1, l, pwa, pwb, pwc, ovl, -, -, -, -, hlg, hovl, -⟩ := hp
    unfold logNames at h
    rw [hlg] at h
    rcases hovl with h0 | ⟨tov, pwd, h0⟩ <;> subst h0 <;>
      simp [entA, entW, entB, entOV] at h
  · obtain ⟨-, -, -, -, bed, t0, t1, l, pwa, pwb, pwc, pwe, pwf, ovl, hlg, hovl, hrow⟩ := hp
    refine ⟨t0, t1 + l, t1 - t0, l, ?_, ?_, hrow, by ring⟩
    · rw [hlg]
      rcases hovl with h0 | ⟨tov, pwd, h0⟩ <;> subst h0 <;>
        simp [entA, entW, entB, entOV, entC, entD]
    · rw [hlg]
      rcases hovl with h0 | ⟨tov, pwd, h0⟩ <;> subst h0 <;>
        simp [entA, entW, entB, entOV, entC, entD]

/-- Witness for C4: in the two-bed scenario with two simultaneous
arrivals, patient 1 departs before the run bound and the conclusion
evaluates on it. -/
theorem claimC4_witness :
    "depart" ∈ logNames (simSteps cfgShared envShared 15) 1
    ∧ ∃ (tA tD q l : ℚ),
      ((logFor (simSteps cfgShared envShared 15) 1).filter
          (fun e => e.event == "arrival")).map (fun e => e.time) = [tA]
      ∧ ((logFor (simSteps cfgShared envShared 15) 1).filter
          (fun e => e.event == "depart")).map (fun e => e.time) = [tD]
      ∧ rowOf (simSteps cfgShared envShared 15) 1 = some (some q, some l)
      ∧ tD - tA = q + l :=
  have hdep : "depart" ∈ logNames (simSteps cfgShared envShared 15) 1 := by
    have hn : logNames (simSteps cfgShared envShared 15) 1
        = ["arrival", "bed_wait_begins", "bed_occupy_begins",
           "bed_occupy_complete", "depart"] := by
      with_unfolding_all rfl
    rw [hn]
    decide
  ⟨hdep, claimC4 cfgShared envShared 15 1 hdep⟩

theorem mem_resultIds_iff (s : ModelState) (pid : ℕ) :
    pid ∈ resultIds s ↔ ∃ r, rowOf s pid = some r := by
  unfold resultIds rowOf
  constructor
  · intro h
    rcases List.mem_map.mp h with ⟨r, hr, hfst⟩
    have hsome : (s.results.find? (fun x => x.1 == pid)).isSome := by
      rw [List.find?_isSome]
      exact ⟨r, hr, by simp [hfst]⟩
    rcases Option.isSome_iff_exists.mp hsome with ⟨x, hx⟩
    exact ⟨x.2, by rw [hx]; rfl⟩
  · rintro ⟨r, hr⟩
    rcases Option.map_eq_some'.mp hr with ⟨x, hx, -⟩
    have hm : x ∈ s.results := List.mem_of_find?_eq_some hx
    have hp := List.find?_some hx
    exact List.mem_map.mpr ⟨x, hm, by simpa using hp⟩

theorem row_iff_of_init (s : ModelState) (pid : ℕ) (l0 : List Entry)
    (hrow : rowInit s pid) (hlg : logFor s pid = l0)
    (hB : "bed_occupy_begins" ∉ l0.map (fun e => e.event)) :
    (∃ r, rowOf s pid = some r)
      ↔ (pid = 1 ∨ "bed_occupy_begins" ∈ logNames s pid) := by
  unfold rowInit at hrow
  unfold logNames
  rw [hlg]
  constructor
  · rintro ⟨r, hr⟩
    by_cases h1 : pid = 1
    · exact Or.inl h1
    · rw [hrow, if_neg h1] at hr
      exact absurd hr (by simp)
  · rintro (h1 | hB2)
    · subst h1
      rw [hrow]
      exact ⟨(some 0, some 0), by simp⟩
    · exact absurd hB2 hB

/-- C6 counterexample: one bed, arrivals at hours 0 and 1, 30-hour
stays, 10-hour run bound.  The generator creates two patients, but the
summary's Arrivals value — `len(self.model.patient_level_results)` — is
1: the table holds only the pre-seeded Patient-ID-1 row (reused by
patient 1 when it began occupancy), and patient 2, still queued at the
cutoff, never received a row. -/
theorem claimC6_counterexample :
    (simSteps cfgArr envArr 12).patient_counter = 2
    ∧ arrivalsValue (simSteps cfgArr envArr 12) = 1 :=
  ⟨by with_unfolding_all rfl, by with_unfolding_all rfl⟩

/-- C6 (amended): the Arrivals cell of a run's summary row stores
`len(patient_level_results)`, the number of rows of the per-run results
table, not the generator's arrival count: a patient id indexes a row
exactly when it is the pre-seeded id 1 or its `bed_occupy_begins` event
was logged before the cutoff, so patients created but still waiting (or
still holding their un-resumed get) at truncation are not counted, while
the seeded row keeps the count at least 1 even with no arrivals. -/
theorem claimC6 (cfg : Config) (env : Streams) (k : ℕ) :
    arrivalsValue (simSteps cfg env k) = (resultIds (simSteps cfg env k)).length
    ∧ ∀ pid : ℕ, pid ∈ resultIds (simSteps cfg env k)
        ↔ (pid = 1 ∨ "bed_occupy_begins" ∈ logNames (simSteps cfg env k) pid) := by
  constructor
  · unfold arrivalsValue resultIds
    rw [List.length_map]
  · intro pid
    rw [mem_resultIds_iff]
    rcases patientInv_all cfg env k pid with hp | hp | hp | hp | hp | hp
    · exact row_iff_of_init _ pid [] hp.2.2.2.2 hp.2.2.2.1 (by simp)
    · exact row_iff_of_init _ pid [] hp.2.2.2.2.2 hp.2.2.2.2.1 (by simp)
    · obtain ⟨-, -, -, sw, pwa, pwb, -, hlg, hrow⟩ := hp
      exact row_iff_of_init _ pid _ hrow hlg (by simp [entA, entW])
    · obtain ⟨-, -, e, bed, sw, pwa, pwb, -, -, -, hlg, hrow⟩ := hp
      exact row_iff_of_init _ pid _ hrow hlg (by simp [entA, entW])
    · obtain ⟨-, -, e, bed, t0, t1, l, pwa, pwb, pwc, ovl, -, -, -, -, hlg, hovl, hrow⟩ := hp
      refine iff_of_true ⟨(some (t1 - t0), some l), hrow⟩ (Or.inr ?_)
      unfold logNames
      rw [hlg]
      simp [entA, entW, entB]
    · obtain ⟨-, -, -, -, bed, t0, t1, l, pwa, pwb, pwc, pwe, pwf, ovl, hlg, hovl, hrow⟩ := hp
      refine iff_of_true ⟨(some (t1 - t0), some l), hrow⟩ (Or.inr ?_)
      unfold logNames
      rw [hlg]
      simp [entA, entW, entB]

end VidigiDES
